import Mathlib

/-!
Verification development for the `reliz` release-automation CLI.

The JavaScript sources are shallowly embedded: JS strings are modelled as
`List Char` (with thin `String` wrappers), the host primitive `Number(...)`
is modelled on the fragment reachable from version strings (optional sign,
decimal digits, empty string; anything else is `NaN`, modelled as `none`),
JS objects / JSON values are modelled by the inductive `JVal`, and the
side-effecting pipeline (`execSync`, `fs`, prompts, HTTP) is modelled by a
trace-producing state monad whose command results come from an environment
of oracles.
-/

set_option maxHeartbeats 1000000

namespace Reliz

/-! ## JS string and number primitives -/
/-- Whitespace characters recognised by JS `trim()` / `Number()` (ASCII fragment). -/
def isWsC (c : Char) : Bool :=
  c = ' ' || c = '\t' || c = '\n' || c = '\r'

/-- Decimal digit character test (`\d` in the JS regexes). -/
def isDigitC (c : Char) : Bool :=
  48 ≤ c.toNat && c.toNat ≤ 57

/-- Word character test (`\w` in the JS regexes): letters, digits, underscore (ASCII). -/
def isWordC (c : Char) : Bool :=
  isDigitC c || (65 ≤ c.toNat && c.toNat ≤ 90) || (97 ≤ c.toNat && c.toNat ≤ 122) || c = '_'

/-- Model of JS `String.prototype.trim` on char lists. -/
def trimL (l : List Char) : List Char :=
  ((l.dropWhile isWsC).reverse.dropWhile isWsC).reverse

/-- Decimal value of a digit string, most significant digit first. -/
def decVal (l : List Char) : Nat :=
  l.foldl (fun a c => a * 10 + (c.toNat - 48)) 0

/-- Model of the JS host primitive `Number(s)` on the strings this program feeds it:
an all-whitespace string is `0`, an optionally signed digit string is its value,
anything else is `NaN` (modelled as `none`). -/
def jsNumber (l : List Char) : Option Int :=
  let t := trimL l
  if t = [] then some 0
  else if t.all isDigitC then some (decVal t)
  else
    match t with
    | '-' :: rest =>
      if rest ≠ [] && rest.all isDigitC then some (-(decVal rest : Int)) else none
    | _ => none

/-- Character for a decimal digit value. -/
def digitCh (d : Nat) : Char := Char.ofNat (48 + d)

/-- Decimal rendering of a natural number, accumulator form with structural fuel
(the fuel only needs to exceed the digit count, see `natCharsGo_fuel`). -/
def natCharsGo : Nat → Nat → List Char → List Char
  | 0, n, acc => digitCh n :: acc
  | fuel + 1, n, acc =>
    if n < 10 then digitCh n :: acc
    else natCharsGo fuel (n / 10) (digitCh (n % 10) :: acc)

/-- Decimal rendering of a natural number (model of JS number-to-string for naturals). -/
def natChars (n : Nat) : List Char := natCharsGo n n []

/-- Decimal rendering of an integer. -/
def intChars : Int → List Char
  | .ofNat n => natChars n
  | .negSucc n => '-' :: natChars (n + 1)

/-- Rendering of a JS number in a template literal: `NaN` prints as `"NaN"`. -/
def numChars : Option Int → List Char
  | none => ['N', 'a', 'N']
  | some i => intChars i

/-- Model of JS `s.split('.')`: split at every dot, keeping empty fragments. -/
def splitOnDot : List Char → List (List Char)
  | [] => [[]]
  | c :: rest =>
    if c = '.' then [] :: splitOnDot rest
    else
      match splitOnDot rest with
      | [] => [[c]]
      | g :: gs => (c :: g) :: gs

/-- Boolean test: `pat` is a prefix of `l`. -/
def startsL : List Char → List Char → Bool
  | [], _ => true
  | _ :: _, [] => false
  | p :: ps, h :: hs => p = h && startsL ps hs

/-- Boolean test: `pat` occurs as a contiguous substring of `l`
(model of JS `String.prototype.includes`, case sensitive). -/
def infixL (pat : List Char) : List Char → Bool
  | [] => startsL pat []
  | h :: t => startsL pat (h :: t) || infixL pat t

/-- Case-insensitive substring test (both sides lowercased). -/
def infixCI (pat l : List Char) : Bool :=
  infixL (pat.map Char.toLower) (l.map Char.toLower)

/-! ## version.js : increaseVersion -/
/-- The `preId` argument of `increaseVersion` as a JS value: `null`, a string,
or some non-string value (the guard `typeof preId !== 'string'` rejects the last). -/
inductive JsPre where
  | null : JsPre
  | str : String → JsPre
  | nonString : JsPre
deriving DecidableEq, Repr

/-- Add one to a JS number (`NaN + 1 = NaN`). -/
def jsAdd1 (o : Option Int) : Option Int := o.map (· + 1)

/-- Embedding of the `switch (type)` of `increaseVersion` (version.js lines 14-34):
splits the current version on dots, reads the first four components with
JS destructuring defaults, and renders the bumped base version. -/
def bumpBase (v : List Char) (ty : String) : List Char :=
  let parts := (splitOnDot v).map jsNumber
  let major := parts.getD 0 (some 0)
  let minor := parts.getD 1 (some 0)
  let patch := parts.getD 2 (some 0)
  let build := parts.getD 3 (some 0)
  if ty = "major" then
    numChars (jsAdd1 major) ++ '.' :: '0' :: '.' :: ['0']
  else if ty = "minor" then
    numChars major ++ '.' :: (numChars (jsAdd1 minor) ++ ['.', '0'])
  else if ty = "patch" then
    numChars major ++ '.' :: (numChars minor ++ '.' :: numChars (jsAdd1 patch))
  else if ty = "hotfix" || ty = "build" then
    if parts.length = 3 then
      numChars major ++ '.' :: (numChars minor ++ '.' :: (numChars patch ++ ['.', '1']))
    else
      numChars major ++ '.' :: (numChars minor ++ '.' :: (numChars patch ++ '.' :: numChars (jsAdd1 build)))
  else
    numChars major ++ '.' :: (numChars minor ++ '.' :: numChars (jsAdd1 patch))

/-- Attempt to match the tail of the pre-release regex
`-<preIdNorm>\.(\d+)$` (case-insensitively) at a split point: the remaining
characters must be a dash, the normalized id, a dot, and a nonempty digit run. -/
def preTail (rest idn : List Char) : Option Nat :=
  match rest with
  | [] => none
  | c :: r2 =>
    if c = '-' then
      if (r2.take idn.length).map Char.toLower = idn then
        match r2.drop idn.length with
        | [] => none
        | d :: ds =>
          if d = '.' then
            if ds ≠ [] && ds.all isDigitC then some (decVal ds) else none
          else none
      else none
    else none

/-- Greedy search for the pre-release match `^(.+)-<idn>\.(\d+)$` on `v`:
tries the longest possible first group (prefix length `k`) first, exactly as
the backtracking regex engine does. -/
def preFindAux (v idn : List Char) : Nat → Option (List Char × Nat)
  | 0 => none
  | k + 1 =>
    match preTail (v.drop (k + 1)) idn with
    | some n => some (v.take (k + 1), n)
    | none => preFindAux v idn k

/-- Model of `currentVersion.match(new RegExp('^(.+)-<preIdNorm>\\.(\\d+)$', 'i'))`
in `increaseVersion`: returns the first capture group and the parsed counter. -/
def preFind (v idn : List Char) : Option (List Char × Nat) :=
  preFindAux v idn v.length

/-- Embedding of `increaseVersion(currentVersion, type, preId)` from version.js
on char lists. A falsy / non-string / blank `preId` returns the base; otherwise
the trimmed, lowercased id either bumps the counter of a matching pre-release
segment of the current version or is appended to the base with counter `0`. -/
def increaseVersionL (v : List Char) (ty : String) (preId : JsPre) : List Char :=
  let base := bumpBase v ty
  match preId with
  | .null => base
  | .nonString => base
  | .str s =>
    let t := trimL s.data
    if t = [] then base
    else
      let idn := t.map Char.toLower
      match preFind v idn with
      | some (p, n) => p ++ '-' :: (idn ++ '.' :: natChars (n + 1))
      | none => base ++ '-' :: (idn ++ ['.', '0'])

/-- String-level wrapper for `increaseVersion`. -/
def increaseVersion (v : String) (ty : String) (preId : JsPre := .null) : String :=
  ⟨increaseVersionL v.data ty preId⟩

/-! ## version.js : suggestBumpFromCommits -/
/-- First line of a commit message: model of `msg.split('\n')[0]`. -/
def firstLineOf (s : String) : List Char :=
  s.data.takeWhile (fun c => c ≠ '\n')

/-- Split a char list at the first closing parenthesis, returning what follows it
(model of consuming `[^)]*\)` in the scope group). -/
def afterCloseParen : List Char → Option (List Char)
  | [] => none
  | c :: r => if c = ')' then some r else afterCloseParen r

/-- Consume the optional scope group `(\([^)]*\))?`: if the input starts with
an opening parenthesis, the group must close (otherwise the next literal of the
regex cannot match the opening parenthesis, so the whole match fails). -/
def skipScope : List Char → Option (List Char)
  | '(' :: r => afterCloseParen r
  | l => some l

/-- Left alternative of the breaking-change regex
`^(\w+)(\([^)]*\))?!:?\s` (version.js line 72): a word, an optional scope,
a bang, an optional colon, then a whitespace character. -/
def breakingHead (l : List Char) : Bool :=
  let w := l.takeWhile isWordC
  let r1 := l.dropWhile isWordC
  if w = [] then false
  else
    match skipScope r1 with
    | none => false
    | some r2 =>
      match r2 with
      | '!' :: ':' :: c :: _ => isWsC c
      | '!' :: c :: _ => isWsC c
      | _ => false

/-- Model of `reBreaking.test(firstLine)`: the anchored left alternative, or the
unanchored case-insensitive literal `BREAKING CHANGE:` anywhere in the line. -/
def breakingTest (l : List Char) : Bool :=
  breakingHead l || infixCI "BREAKING CHANGE:".data l

/-- Model of the anchored regex `^<ty>(\([^)]*\))?!?:\s` (case-insensitive),
shared shape of `reFeat` and `reFix` (version.js lines 73-74). -/
def typeHead (ty l : List Char) : Bool :=
  if (l.take ty.length).map Char.toLower = ty then
    match skipScope (l.drop ty.length) with
    | none => false
    | some r =>
      match r with
      | '!' :: ':' :: c :: _ => isWsC c
      | ':' :: c :: _ => isWsC c
      | _ => false
  else false

/-- Model of `reFeat.test(firstLine)`. -/
def featTest (l : List Char) : Bool := typeHead "feat".data l

/-- Model of `reFix.test(firstLine)`. -/
def fixTest (l : List Char) : Bool := typeHead "fix".data l

/-- Bump kinds returned by `suggestBumpFromCommits` (`null` is `Option.none`). -/
inductive Bump where
  | major : Bump
  | minor : Bump
  | patch : Bump
deriving DecidableEq, Repr

/-- The flag-accumulating loop of `suggestBumpFromCommits` (version.js lines 76-81):
for each message the first matching class sets its flag via `else if` chaining. -/
def suggestLoop : List String → Bool → Bool → Bool → Bool × Bool × Bool
  | [], hb, hf, hx => (hb, hf, hx)
  | m :: rest, hb, hf, hx =>
    let fl := firstLineOf m
    if breakingTest fl then suggestLoop rest true hf hx
    else if featTest fl then suggestLoop rest hb true hx
    else if fixTest fl then suggestLoop rest hb hf true
    else suggestLoop rest hb hf hx

/-- Embedding of `suggestBumpFromCommits(commitMessages)` from version.js. -/
def suggestBumpFromCommits (msgs : List String) : Option Bump :=
  match suggestLoop msgs false false false with
  | (hb, hf, hx) =>
    if hb then some .major
    else if hf then some .minor
    else if hx then some .patch
    else none

/-- Commit classified as breaking (first line matches `reBreaking`). -/
def isBreakingMsg (m : String) : Bool := breakingTest (firstLineOf m)

/-- Commit classified as a feature (first line matches `reFeat`). -/
def isFeatMsg (m : String) : Bool := featTest (firstLineOf m)

/-- Commit classified as a fix (first line matches `reFix`). -/
def isFixMsg (m : String) : Bool := fixTest (firstLineOf m)

/-! ## Arithmetic and character lemmas for the version model -/
/-- Recursive specification of decimal rendering, used to reason about the
fuel-based `natCharsGo`. -/
def natCharsSpec (n : Nat) : List Char :=
  if n < 10 then [digitCh n]
  else natCharsSpec (n / 10) ++ [digitCh (n % 10)]
termination_by n
decreasing_by
  simp_wf
  omega

/-! ## Rendered version strings -/
/-- Three-component version string built from natural components. -/
def render3 (a b c : Nat) : List Char :=
  natChars a ++ '.' :: (natChars b ++ '.' :: natChars c)

/-- Four-component version string built from natural components. -/
def render4 (a b c d : Nat) : List Char :=
  natChars a ++ '.' :: (natChars b ++ '.' :: (natChars c ++ '.' :: natChars d))

/-! ## The component-wise version ordering of the specification -/
/-- A version as the specification defines it: four numeric components plus an
optional pre-release segment (identifier and counter). -/
structure SemVer where
  major : Nat
  minor : Nat
  patch : Nat
  build : Nat
  pre : Option (List Char × Nat)
deriving DecidableEq, Repr

/-- Split a char list at its first dash, if any. -/
def splitFirstDash : List Char → List Char × Option (List Char)
  | [] => ([], none)
  | c :: r =>
    if c = '-' then ([], some r)
    else
      let p := splitFirstDash r
      (c :: p.1, p.2)

/-- Parse one numeric version component (nonempty, all digits). -/
def parseComp (l : List Char) : Option Nat :=
  if l ≠ [] && l.all isDigitC then some (decVal l) else none

/-- Parse a dotted base version with three or four numeric components
(a missing build component reads as `0`). -/
def parseBase (l : List Char) : Option (Nat × Nat × Nat × Nat) :=
  match (splitOnDot l).map parseComp with
  | [some a, some b, some c] => some (a, b, c, 0)
  | [some a, some b, some c, some d] => some (a, b, c, d)
  | _ => none

/-- Split a char list at its last dot, if any. -/
def lastDotSplit : List Char → Option (List Char × List Char)
  | [] => none
  | c :: r =>
    match lastDotSplit r with
    | some (idp, ds) => some (c :: idp, ds)
    | none => if c = '.' then some ([], r) else none

/-- Parse a pre-release segment `id.counter` (nonempty id, nonempty digit counter). -/
def parsePreSeg (l : List Char) : Option (List Char × Nat) :=
  match lastDotSplit l with
  | some (idp, ds) =>
    if idp ≠ [] && (ds ≠ [] && ds.all isDigitC) then some (idp, decVal ds) else none
  | none => none

/-- Parse a version string into the specification's version shape. -/
def parseVersion (v : List Char) : Option SemVer :=
  match splitFirstDash v with
  | (b, none) =>
    match parseBase b with
    | some (x, y, z, w) => some ⟨x, y, z, w, none⟩
    | none => none
  | (b, some r) =>
    match parseBase b, parsePreSeg r with
    | some (x, y, z, w), some pre => some ⟨x, y, z, w, some pre⟩
    | _, _ => none

/-- Strict order on pre-release segments: a pre-release precedes the plain
release of the same base, and with equal identifiers the counter decides. -/
def preLtB : Option (List Char × Nat) → Option (List Char × Nat) → Bool
  | some _, none => true
  | some (i, n), some (j, m) => decide (i = j) && decide (n < m)
  | _, _ => false

/-- The component-wise (lexicographic) strict order on parsed versions. -/
def svLtB (x y : SemVer) : Bool :=
  if x.major ≠ y.major then decide (x.major < y.major)
  else if x.minor ≠ y.minor then decide (x.minor < y.minor)
  else if x.patch ≠ y.patch then decide (x.patch < y.patch)
  else if x.build ≠ y.build then decide (x.build < y.build)
  else preLtB x.pre y.pre

/-- Boolean form of the claim C3 property at one input: both the current version
and the bumped version parse, and the bumped one is strictly greater. -/
def strictlyIncreasesB (v : List Char) (ty : String) (pre : JsPre) : Bool :=
  match parseVersion v, parseVersion (increaseVersionL v ty pre) with
  | some x, some y => svLtB x y
  | _, _ => false

/-- A well-formed pre-release identifier in normalized form: nonempty, free of
whitespace, dashes and dots, and fixed under lowercasing. -/
def goodId (idn : List Char) : Prop :=
  idn ≠ [] ∧ ∀ c ∈ idn, isWsC c = false ∧ c ≠ '-' ∧ c ≠ '.' ∧ Char.toLower c = c

/-- The bump kinds of the specification. -/
def specBumpKind (ty : String) : Prop :=
  ty = "major" ∨ ty = "minor" ∨ ty = "patch" ∨ ty = "hotfix"

/-! ## JSON values: the data config.js manipulates -/
mutual
/-- JSON-like JS values (objects keep field insertion order, as JS does). -/
inductive JVal where
  | null : JVal
  | bool : Bool → JVal
  | num : Int → JVal
  | str : String → JVal
  | arr : JArr → JVal
  | obj : JFields → JVal
/-- Array of JSON values. -/
inductive JArr where
  | nil : JArr
  | cons : JVal → JArr → JArr
/-- Object fields of a JSON value. -/
inductive JFields where
  | nil : JFields
  | cons : String → JVal → JFields → JFields
end

/-- Build object fields from a list literal. -/
def JFields.ofList : List (String × JVal) → JFields
  | [] => .nil
  | (k, v) :: r => .cons k v (JFields.ofList r)

/-- Build an array from a list literal. -/
def JArr.ofList : List JVal → JArr
  | [] => .nil
  | v :: r => .cons v (JArr.ofList r)

/-- Read a field of an object (JS property access; `none` is `undefined`). -/
def getKeyF : JFields → String → Option JVal
  | .nil, _ => none
  | .cons k2 v rest, k => if k2 = k then some v else getKeyF rest k

/-- Assign a field of an object, preserving JS key-insertion order. -/
def setKeyF : JFields → String → JVal → JFields
  | .nil, k, v => .cons k v .nil
  | .cons k2 v2 rest, k, v =>
    if k2 = k then .cons k2 v rest else .cons k2 v2 (setKeyF rest k v)

/-- Model of `out[key] || {}` in `deepMerge` (and of spreading a non-object):
only an object value contributes fields. -/
def asObjF : Option JVal → JFields
  | some (.obj o) => o
  | _ => .nil

/-- Property read with optional chaining `v?.k`. -/
def getVal : JVal → String → Option JVal
  | .obj o, k => getKeyF o k
  | _, _ => none

/-- JS truthiness of a JSON value. -/
def jsTruthy : JVal → Bool
  | .null => false
  | .bool b => b
  | .num n => n ≠ 0
  | .str s => s ≠ ""
  | .arr _ => true
  | .obj _ => true

/-- Observation `v === true` on an optional property. -/
def obsEqTrue : Option JVal → Bool
  | some (.bool true) => true
  | _ => false

/-- Observation `v === false` on an optional property. -/
def obsEqFalse : Option JVal → Bool
  | some (.bool false) => true
  | _ => false

mutual
/-- Embedding of `deepMerge(target, source)` from config.js applied to one
source field: an object value recursively merges into `out[key] || {}`,
any other defined value replaces wholesale. -/
def mergeInto : JFields → String → JVal → JFields
  | t, k, .obj o => setKeyF t k (.obj (deepMergeFields (asObjF (getKeyF t k)) o))
  | t, k, v => setKeyF t k v
/-- Embedding of the `for (const key of Object.keys(source))` loop of
`deepMerge` (config.js lines 67-77). -/
def deepMergeFields : JFields → JFields → JFields
  | target, .nil => target
  | target, .cons k v rest => deepMergeFields (mergeInto target k v) rest
end

/-! ## File system and environment models -/
/-- Content of a file as far as the configuration loader observes it: either
its text parses as a JSON value or `JSON.parse` would throw. This models the
host primitives `fs.readFileSync` plus `JSON.parse` at the collaborator
boundary. -/
inductive JFile where
  | ok : JVal → JFile
  | bad : JFile

/-- A snapshot of the file system: existing paths and their parse results. -/
structure FSys where
  files : List (String × JFile)

/-- Lookup of a path in the snapshot. -/
def fsLookup (fs : FSys) (p : String) : Option JFile :=
  go fs.files
where
  go : List (String × JFile) → Option JFile
    | [] => none
    | (q, f) :: rest => if q = p then some f else go rest

/-- Model of `fs.existsSync`. -/
def existsSync (fs : FSys) (p : String) : Bool :=
  (fsLookup fs p).isSome

/-- Model of `JSON.parse` on a stored file. -/
def jsonParse : JFile → Except String JVal
  | .ok v => .ok v
  | .bad => .error "Unexpected token in JSON"

/-- Model of `path.join(cwd, p)`. -/
def pathJoin (cwd p : String) : String := cwd ++ "/" ++ p

/-- Model of `path.isAbsolute`. -/
def isAbsolutePath (p : String) : Bool :=
  match p.data with
  | '/' :: _ => true
  | _ => false

/-- Resolution of an explicit `--config` path (config.js line 81). -/
def resolveConfigPath (cwd ep : String) : String :=
  if isAbsolutePath ep then ep else pathJoin cwd ep

/-- Environment variables of the process. -/
def envGet (env : List (String × String)) (k : String) : Option String :=
  match env with
  | [] => none
  | (k2, v) :: rest => if k2 = k then some v else envGet rest k

/-- JS truthiness of an env var (`!!env.X`). -/
def truthyEnv (env : List (String × String)) (k : String) : Bool :=
  match envGet env k with
  | some s => s ≠ ""
  | none => false

/-- Test `env.X === '1' || env.X === 'true'`. -/
def envFlag (env : List (String × String)) (k : String) : Bool :=
  match envGet env k with
  | some s => s = "1" || s = "true"
  | none => false

/-! ## config.js : findConfigFile / loadFromFile -/
/-- The bump kinds accepted on the command line and in `RELIZ_BUMP`. -/
def BUMP_TYPES : List String := ["patch", "minor", "major", "hotfix"]

/-- Result of `findConfigFile`: a path, the package-json embedded config, or
nothing. -/
inductive FoundCfg where
  | path : String → FoundCfg
  | fromPackage : JVal → FoundCfg
  | nothing : FoundCfg

/-- Embedding of `findConfigFile(cwd, explicitPath)` (config.js lines 79-97). -/
def findConfigFile (fs : FSys) (cwd : String) (explicitPath : Option String) : FoundCfg :=
  match explicitPath with
  | some ep =>
    let p := resolveConfigPath cwd ep
    if existsSync fs p then .path p else .nothing
  | none =>
    let p1 := pathJoin cwd ".reliz.json"
    if existsSync fs p1 then .path p1
    else
      let p2 := pathJoin cwd ".relizrc.json"
      if existsSync fs p2 then .path p2
      else
        let pkgPath := pathJoin cwd "package.json"
        match fsLookup fs pkgPath with
        | none => .nothing
        | some jf =>
          match jsonParse jf with
          | .error _ => .nothing
          | .ok pkg =>
            match getVal pkg "reliz" with
            | none => .nothing
            | some .null => .nothing
            | some _ => .fromPackage pkg

/-- The error class the specification calls ConfigError. -/
inductive ConfigError where
  | error : String → ConfigError
deriving DecidableEq, Repr

/-- Embedding of `loadFromFile(cwd, explicitPath)` (config.js lines 99-110):
no branch throws — a missing (even explicitly named) file and an unparseable
file both return the empty object. -/
def loadFromFile (fs : FSys) (cwd : String) (explicitPath : Option String) :
    Except ConfigError JVal :=
  match findConfigFile fs cwd explicitPath with
  | .nothing => .ok (.obj .nil)
  | .fromPackage pkg =>
    .ok (match getVal pkg "reliz" with
         | some v => if jsTruthy v then v else .obj .nil
         | none => .obj .nil)
  | .path p =>
    match fsLookup fs p with
    | some jf =>
      match jsonParse jf with
      | .ok v => .ok v
      | .error _ => .ok (.obj .nil)
    | none => .ok (.obj .nil)

/-! ## config.js : env, argv and loadConfig -/
/-- The optional overrides read from `RELIZ_*` environment variables. -/
structure EnvOverrides where
  ci : Bool
  bump : Option String
  dryRun : Bool
  noGitFlow : Bool
  yes : Bool
  preid : Option String

/-- Embedding of `loadFromEnv()` (config.js lines 112-122). -/
def loadFromEnv (env : List (String × String)) : EnvOverrides where
  ci := envFlag env "RELIZ_CI"
  bump :=
    match envGet env "RELIZ_BUMP" with
    | some s => if s ≠ "" && BUMP_TYPES.contains s then some s else none
    | none => none
  dryRun := envFlag env "RELIZ_DRY_RUN"
  noGitFlow := envFlag env "RELIZ_NO_GIT_FLOW"
  yes := envFlag env "RELIZ_YES"
  preid :=
    match envGet env "RELIZ_PREID" with
    | some s => if s ≠ "" then some s else none
    | none => none

/-- The parsed command-line flags of `parseArgv`. -/
structure ParsedArgv where
  bump : Option String := none
  ci : Bool := false
  dryRun : Bool := false
  noGitFlow : Bool := false
  yes : Bool := false
  config : Option String := none
  preid : Option String := none
  noIncrement : Bool := false
  releaseVersion : Bool := false
  onlyVersion : Bool := false
  changelog : Bool := false
  verbose : Bool := false

/-- Prefix test on strings (JS `String.prototype.startsWith`). -/
def strStarts (pre s : String) : Bool := startsL pre.data s.data

/-- Drop the first `n` characters (JS `String.prototype.slice(n)`). -/
def strDropL (n : Nat) (s : String) : String := ⟨s.data.drop n⟩

/-- Embedding of the argument loop of `parseArgv` (config.js lines 140-155). -/
def parseArgvGo : List String → ParsedArgv → ParsedArgv
  | [], out => out
  | a :: rest, out =>
    if a = "--ci" then parseArgvGo rest { out with ci := true }
    else if a = "--dry-run" then parseArgvGo rest { out with dryRun := true }
    else if a = "--no-git-flow" then parseArgvGo rest { out with noGitFlow := true }
    else if a = "--yes" || a = "-y" then parseArgvGo rest { out with yes := true }
    else if a = "--no-increment" then parseArgvGo rest { out with noIncrement := true }
    else if a = "--release-version" then parseArgvGo rest { out with releaseVersion := true }
    else if a = "--only-version" then parseArgvGo rest { out with onlyVersion := true }
    else if a = "--changelog" then parseArgvGo rest { out with changelog := true }
    else if a = "--verbose" || a = "-V" then parseArgvGo rest { out with verbose := true }
    else if a = "--config" then
      match rest with
      | b :: rest2 =>
        if b ≠ "" then parseArgvGo rest2 { out with config := some b }
        else parseArgvGo (b :: rest2) out
      | [] => parseArgvGo [] out
    else if strStarts "--bump=" a then parseArgvGo rest { out with bump := some (strDropL 7 a) }
    else if strStarts "--preid=" a then parseArgvGo rest { out with preid := some (strDropL 8 a) }
    else if !strStarts "--" a && BUMP_TYPES.contains a then
      parseArgvGo rest { out with bump := some a }
    else parseArgvGo rest out

/-- Embedding of `parseArgv(argv)`. -/
def parseArgv (argv : List String) : ParsedArgv :=
  parseArgvGo argv {}

/-- Embedding of `isCiEnv()` (config.js lines 163-174). -/
def isCiEnv (env : List (String × String)) : Bool :=
  envFlag env "CI" || truthyEnv env "GITHUB_ACTIONS" || truthyEnv env "GITLAB_CI" ||
    truthyEnv env "CIRCLECI" || truthyEnv env "TRAVIS" || truthyEnv env "JENKINS_URL"

/-- The built-in defaults of `getDefaults()` (config.js lines 8-65). -/
def getDefaults : JFields := JFields.ofList [
  ("gitFlow", .bool true),
  ("git", .obj (JFields.ofList [
    ("requireUpstream", .bool false),
    ("pushArgs", .arr (JArr.ofList [.str "--follow-tags"]))])),
  ("branches", .obj (JFields.ofList [
    ("main", .str "main"),
    ("develop", .str "develop")])),
  ("releaseBranchPrefix", .str "release/"),
  ("changelog", .obj (JFields.ofList [
    ("dateLocale", .str "fa-IR"),
    ("path", .str "CHANGELOG.md"),
    ("template", .null),
    ("command", .null),
    ("releaseNotesCommand", .null),
    ("includeTypes", .null),
    ("groupByType", .bool false)])),
  ("tag", .obj (JFields.ofList [
    ("prefix", .str "v"),
    ("deleteIfExists", .bool true)])),
  ("syncBranches", .bool true),
  ("requireCleanWorkingDir", .bool true),
  ("allowReleaseFrom", .arr (JArr.ofList [.str "develop"])),
  ("hooks", .obj (JFields.ofList [
    ("beforeInit", .arr .nil),
    ("beforeRelease", .arr .nil),
    ("afterBump", .arr .nil),
    ("afterGitRelease", .arr .nil),
    ("afterRelease", .arr .nil)])),
  ("npm", .obj (JFields.ofList [
    ("publish", .bool false),
    ("publishPath", .str "."),
    ("tag", .str "latest"),
    ("otp", .null)])),
  ("github", .obj (JFields.ofList [
    ("release", .bool false),
    ("tokenRef", .str "GITHUB_TOKEN"),
    ("draft", .bool false),
    ("preRelease", .bool false)])),
  ("gitlab", .obj (JFields.ofList [
    ("release", .bool false),
    ("tokenRef", .str "GITLAB_TOKEN")])),
  ("conventionalCommits", .bool false),
  ("commitMessage", .str "release: update version to ${version} and changelog"),
  ("tagMessage", .str "Release-${version}"),
  ("preRelease", .obj (JFields.ofList [("id", .null)])),
  ("plugins", .arr .nil)]

/-- The argv record `loadConfig` returns (config.js lines 202-215). -/
structure ArgvOut where
  bump : Option String
  ci : Bool
  dryRun : Bool
  noGitFlow : Bool
  yes : Bool
  config : Option String
  preid : JVal
  noIncrement : Bool
  releaseVersion : Bool
  onlyVersion : Bool
  changelog : Bool
  verbose : Bool

/-- JS `a || b` on JSON values. -/
def jsOrJ (a b : JVal) : JVal := if jsTruthy a then a else b

/-- JS `a || b` on optional strings, where the empty string is falsy. -/
def jsOrStr (a b : Option String) : Option String :=
  match a with
  | some s => if s ≠ "" then some s else b
  | none => b

/-- The explicit-path argument of the `loadFromFile` call in `loadConfig`
(config.js line 185): `parsed.config ? parsed.config : null`. -/
def explicitOf : Option String → Option String
  | some s => if s ≠ "" then some s else none
  | none => none

/-- Embedding of `loadConfig(cwd, argv)` (config.js lines 182-217), with the
argv already parsed. Merges defaults with the file config, applies env
overrides, resolves the pre-release id, and detects CI. -/
def loadConfigWith (fs : FSys) (env : List (String × String)) (cwd : String)
    (parsed : ParsedArgv) : Except ConfigError (JFields × ArgvOut) :=
  match loadFromFile fs cwd (explicitOf parsed.config) with
  | .error e => .error e
  | .ok fileConfig =>
    let config1 := deepMergeFields getDefaults (asObjF (some fileConfig))
    let envO := loadFromEnv env
    let config2 := if envO.ci then setKeyF config1 "ci" (.bool true) else config1
    let config3 := if envO.dryRun then setKeyF config2 "dryRun" (.bool true) else config2
    let config4 :=
      match envO.bump with
      | some b => setKeyF config3 "bump" (.str b)
      | none => config3
    let pPre : JVal := match parsed.preid with | some s => .str s | none => .null
    let ePre : JVal := match envO.preid with | some s => .str s | none => .null
    let cPre : JVal :=
      match getKeyF config4 "preRelease" with
      | some pr => (match getVal pr "id" with | some v => v | none => .null)
      | none => .null
    let preid := jsOrJ pPre (jsOrJ ePre cPre)
    let config5 :=
      if jsTruthy preid then
        setKeyF config4 "preRelease"
          (.obj (setKeyF (asObjF (getKeyF config4 "preRelease")) "id" preid))
      else config4
    let isCi := parsed.ci || obsEqTrue (getKeyF config5 "ci") ||
      (!obsEqFalse (getKeyF config5 "ci") && isCiEnv env)
    let config6 := if isCi then setKeyF config5 "ci" (.bool true) else config5
    .ok (config6, {
      bump := jsOrStr parsed.bump (jsOrStr envO.bump none)
      ci := isCi
      dryRun := parsed.dryRun || obsEqTrue (getKeyF config6 "dryRun")
      noGitFlow := parsed.noGitFlow
      yes := parsed.yes
      config := parsed.config
      preid := if jsTruthy preid then preid else .null
      noIncrement := parsed.noIncrement
      releaseVersion := parsed.releaseVersion
      onlyVersion := parsed.onlyVersion
      changelog := parsed.changelog
      verbose := parsed.verbose })

/-- Embedding of `loadConfig(cwd, argv)`. -/
def loadConfig (fs : FSys) (env : List (String × String)) (cwd : String)
    (argv : List String) : Except ConfigError (JFields × ArgvOut) :=
  loadConfigWith fs env cwd (parseArgv argv)

/-- Embedding of the effective dry-run computation of `run()` (cli.js lines
19-21): `const dryRun = config.dryRun ?? argv.dryRun`, used as a condition. -/
def effectiveDryRun (fs : FSys) (env : List (String × String)) (cwd : String)
    (argv : List String) : Except ConfigError Bool :=
  match loadConfig fs env cwd argv with
  | .error e => .error e
  | .ok (config, av) =>
    .ok (match getKeyF config "dryRun" with
         | some .null => av.dryRun
         | some v => jsTruthy v
         | none => av.dryRun)

/-- Decidable observation: the loader returned exactly the empty object. -/
def obsOkEmptyObj : Except ConfigError JVal → Bool
  | .ok (.obj .nil) => true
  | _ => false

/-- Decidable observation: the effective dry-run boolean of a run. -/
def obsOkBool : Except ConfigError Bool → Option Bool
  | .ok b => some b
  | .error _ => none

/-- Decidable observation: the `dryRun` field of the argv record `loadConfig` returns. -/
def obsArgvDryRun : Except ConfigError (JFields × ArgvOut) → Option Bool
  | .ok (_, av) => some av.dryRun
  | .error _ => none

/-- Decidable observation of `findConfigFile` returning a path. -/
def foundPath : FoundCfg → Option String
  | .path p => some p
  | _ => none

/-- Decidable observation: the path exists and its content does not parse. -/
def isBadFile : Option JFile → Bool
  | some .bad => true
  | _ => false

/-- File system with a discovered `.reliz.json` whose content does not parse. -/
def fsBadCfg : FSys := ⟨[(pathJoin "/w" ".reliz.json", .bad)]⟩

/-- File system whose discovered `.reliz.json` sets `dryRun` to `false`. -/
def fsDryRunFalse : FSys :=
  ⟨[(pathJoin "/w" ".reliz.json", .ok (.obj (JFields.ofList [("dryRun", .bool false)])))]⟩

/-! ## Effects and the execution monad

The side-effecting pipeline is modelled by a state monad producing a trace of
effects. Results of `execSync` calls whose outcome can vary (pushes, installs,
listings inside the workflow functions) are consumed in order from a queue of
oracles in the state; an exhausted queue yields success with empty output.
Read-only repository facts that the cli helpers fetch (current branch, commit
subjects, latest tag) are fields of the run environment, and the corresponding
`execSync` invocations still appear in the trace as read effects. -/
/-- One observable effect of the program. Write-class constructors
(`gitWrite`, `fsWrite`, `hookExec`, `npmExec`, `netPost`) are the mutations the
dry-run claims are about. -/
inductive Eff where
  | log : String → Eff
  | warn : String → Eff
  | errlog : String → Eff
  | prompt : String → Eff
  | gitRead : String → Eff
  | gitWrite : String → Eff
  | fsWrite : String → Eff
  | hookExec : String → Eff
  | npmExec : String → Eff
  | netPost : String → Eff
deriving DecidableEq, Repr

/-- Mutation classification of an effect. -/
def isMutEff : Eff → Bool
  | .gitWrite _ => true
  | .fsWrite _ => true
  | .hookExec _ => true
  | .npmExec _ => true
  | .netPost _ => true
  | _ => false

/-- How a computation stops early: `process.exit(code)` or a thrown JS error. -/
inductive Halt where
  | exit : Nat → Halt
  | fail : String → Halt
deriving DecidableEq, Repr

/-- Execution state: the queue of pending command outcomes and the trace so far. -/
structure St where
  queue : List (Except String String)
  trace : List Eff

/-- The execution monad. -/
def M (α : Type) : Type := St → Except Halt α × St

instance : Monad M where
  pure a := fun s => (.ok a, s)
  bind x f := fun s =>
    match x s with
    | (.ok a, s2) => f a s2
    | (.error h, s2) => (.error h, s2)

/-- Record an effect. -/
def emit (e : Eff) : M Unit := fun s => (.ok (), ⟨s.queue, s.trace ++ [e]⟩)

/-- Model of `throw new Error(msg)` (and of a rejected promise). -/
def throwJs {α : Type} (msg : String) : M α := fun s => (.error (.fail msg), s)

/-- Model of `process.exit(code)`, which no catch intercepts. -/
def exitProc {α : Type} (code : Nat) : M α := fun s => (.error (.exit code), s)

/-- Model of `try { x } catch (e) { h(e.message) }`. -/
def tryCatch {α : Type} (x : M α) (h : String → M α) : M α := fun s =>
  match x s with
  | (.error (.fail msg), s2) => h msg s2
  | r => r

/-- Pop the next command outcome (an exhausted queue succeeds with no output). -/
def nextResult : M (Except String String) := fun s =>
  match s.queue with
  | [] => (.ok (.ok ""), s)
  | r :: rest => (.ok r, ⟨rest, s.trace⟩)

/-- Record an effect for a command and deliver its queued outcome, throwing on
failure exactly as `execSync` does. -/
def execCmd (mk : String → Eff) (cmd : String) : M String := do
  emit (mk cmd)
  let r ← nextResult
  match r with
  | .ok out => pure out
  | .error m => throwJs m

/-- A mutating git command. -/
def execGitWrite (cmd : String) : M String := execCmd .gitWrite cmd

/-- A read-only git command whose output is consumed. -/
def execGitRead (cmd : String) : M String := execCmd .gitRead cmd

/-- An arbitrary shell command (hooks, changelog commands). -/
def execShell (cmd : String) : M String := execCmd .hookExec cmd

/-- An npm command. -/
def execNpm (cmd : String) : M String := execCmd .npmExec cmd

/-- Run a computation on a queue of outcomes, returning result and trace. -/
def runM {α : Type} (m : M α) (q : List (Except String String)) :
    Except Halt α × List Eff :=
  match m ⟨q, []⟩ with
  | (r, s) => (r, s.trace)

/-- Map a finished pipeline to the process exit code, modelling the final
`.catch` of `run()` (cli.js lines 203-206): a thrown error prints
`Error: <message>` and exits 1; `process.exit(n)` exits `n`; a completed chain
lets the process exit 0. -/
def runToExit (m : M Unit) (q : List (Except String String)) : Nat × List Eff :=
  match m ⟨q, []⟩ with
  | (.ok (), s) => (0, s.trace)
  | (.error (.exit n), s) => (n, s.trace)
  | (.error (.fail msg), s) => (1, s.trace ++ [.errlog ("Error: " ++ msg)])

/-! ## String helpers shared by the workflow models -/
/-- Model of JS `s.split('\n')`. -/
def splitLines : List Char → List (List Char)
  | [] => [[]]
  | c :: rest =>
    if c = '\n' then [] :: splitLines rest
    else
      match splitLines rest with
      | [] => [[c]]
      | g :: gs => (c :: g) :: gs

/-- Global, non-overlapping, left-to-right replacement of a pattern
(model of `String.prototype.replace` with a global literal regex); the fuel is
the length of the haystack, which one-character progress per step makes
sufficient. -/
def replaceAllGo (pat rep : List Char) : Nat → List Char → List Char
  | 0, hay => hay
  | _ + 1, [] => []
  | fuel + 1, c :: rest =>
    if pat ≠ [] && startsL pat (c :: rest) then
      rep ++ replaceAllGo pat rep fuel ((c :: rest).drop pat.length)
    else c :: replaceAllGo pat rep fuel rest

/-- String-level global replacement. -/
def replaceAll (s pat rep : String) : String :=
  ⟨replaceAllGo pat.data rep.data s.data.length s.data⟩

/-- Escape double quotes as the commit/tag message embedding does
(`msg.replace(/"/g, '\\"')`). -/
def escapeQuotes (s : String) : String := replaceAll s "\"" "\\\""

mutual
/-- JS string conversion of a value (template-literal interpolation). -/
def jvalToStr : JVal → String
  | .null => "null"
  | .bool true => "true"
  | .bool false => "false"
  | .num n => ⟨intChars n⟩
  | .str s => s
  | .arr a => jarrToStr a
  | .obj _ => "[object Object]"
/-- JS array-to-string: elements joined with commas. -/
def jarrToStr : JArr → String
  | .nil => ""
  | .cons v .nil => jvalToStr v
  | .cons v rest => jvalToStr v ++ "," ++ jarrToStr rest
end

/-- JS `a || b` where `a` is an optional property value. -/
def jsOrVal (a : Option JVal) (b : JVal) : JVal :=
  match a with
  | some v => if jsTruthy v then v else b
  | none => b

/-- Read `cfg.k1?.k2` from the configuration object. -/
def getVal2 (cfg : JFields) (k1 k2 : String) : Option JVal :=
  match getKeyF cfg k1 with
  | some v => getVal v k2
  | none => none

/-- The interpolation loop of hooks.js `interpolate(cmd, context)`: scalar
context entries substitute `${key}` globally, in entry order. -/
def interp (cmd : String) : List (String × String) → String
  | [] => cmd
  | (k, v) :: rest => interp (replaceAll cmd ("$\x7b" ++ k ++ "\x7d") v) rest

/-- Elements of a JSON array as a list. -/
def jarrList : JArr → List JVal
  | .nil => []
  | .cons v rest => v :: jarrList rest

/-! ## gitFlow.js : syncBranches -/
/-- The release context object built by `run()` (cli.js lines 133-156), as far
as the workflow and publication functions read it. -/
structure Ctx where
  cwd : String
  dryRun : Bool
  isCi : Bool
  verbose : Bool
  currentBranch : String
  currentVersion : String
  newVersion : String
  latestTag : Option String
  bump : Option String
  commits : List String
  projectName : String
  dateStr : String
  tagName : String
  changelogText : String
  releaseUrl : Option String
deriving Repr

/-- Embedding of `syncBranches(context)` (gitFlow.js lines 11-28): fetches all
branches, force-updates the local main branch unconditionally, and
force-updates the local develop branch only when it is not currently checked
out. -/
def syncBranches (cfg : JFields) (ctx : Ctx) : M Unit := do
  let main := jvalToStr (jsOrVal (getVal2 cfg "branches" "main") (.str "main"))
  let develop := jvalToStr (jsOrVal (getVal2 cfg "branches" "develop") (.str "develop"))
  emit (.log "Fetching all branches...")
  let _ ← execGitWrite "git fetch --all --prune"
  emit (.log "Pulling main...")
  let _ ← execGitWrite ("git fetch origin " ++ main)
  let _ ← execGitWrite ("git branch --force " ++ main ++ " origin/" ++ main)
  emit (.log "Pulling develop...")
  let _ ← execGitWrite ("git fetch origin " ++ develop)
  if ctx.currentBranch ≠ develop then
    let _ ← execGitWrite ("git branch --force " ++ develop ++ " origin/" ++ develop)
    pure ()
  else
    emit (.log "Skipping force update for develop (currently checked out).")
  emit (.log "Branches are up to date.")

/-- A sample context checked out on the main branch. -/
def ctxOnMain : Ctx :=
  ⟨"/w", false, false, false, "main", "1.0.0", "1.1.0", none, some "minor", [],
   "proj", "2026-01-01", "v1.1.0", "", none⟩

/-! ## gitFlow.js : performGitFlowRelease -/
/-- The non-fast-forward test of the push handler (gitFlow.js line 82):
`pushErr.message && pushErr.message.includes('non-fast-forward')`. -/
def hasNffMsg (m : String) : Bool :=
  m ≠ "" && infixL "non-fast-forward".data m.data

/-- JS `haystack.includes(needle)`. -/
def strIncludes (pat s : String) : Bool := infixL pat.data s.data

/-- Output of `git tag` split into nonempty lines (gitFlow.js line 102). -/
def gitTagLines (out : String) : List (List Char) :=
  (splitLines out.data).filter (fun l => l ≠ [])

/-- The `(config.git?.pushArgs || [])` read. -/
def cfgArr (o : Option JVal) : JArr :=
  match jsOrVal o (.arr .nil) with
  | .arr a => a
  | _ => .nil

/-- The push-argument suffix (gitFlow.js lines 75-76): truthy args joined by
spaces, preceded by one space when nonempty. -/
def pushSuffixOf (cfg : JFields) : String :=
  match (jarrList (cfgArr (getVal2 cfg "git" "pushArgs"))).filter jsTruthy with
  | [] => ""
  | args => " " ++ String.intercalate " " (args.map jvalToStr)

/-- The tag name computed at gitFlow.js lines 100-101:
`config.tag?.prefix ?? 'v'`, then prefixed only when truthy. -/
def gfTagName (cfg : JFields) (version : String) : String :=
  let tagPrefixJ :=
    match getVal2 cfg "tag" "prefix" with
    | some .null => JVal.str "v"
    | some v => v
    | none => .str "v"
  if jsTruthy tagPrefixJ then jvalToStr tagPrefixJ ++ version else version

/-- Embedding of `performGitFlowRelease(context)` (gitFlow.js lines 44-113):
branch detection, release-branch creation or checkout, file updates, commit,
the push with its single non-fast-forward rebase-and-retry, the git-flow
finish, the integration-branch pushes, and the guarded tag push. -/
def performGitFlowRelease (cfg : JFields) (ctx : Ctx) : M Unit := do
  let main := jvalToStr (jsOrVal (getVal2 cfg "branches" "main") (.str "main"))
  let develop := jvalToStr (jsOrVal (getVal2 cfg "branches" "develop") (.str "develop"))
  let prefx := jvalToStr (jsOrVal (getKeyF cfg "releaseBranchPrefix") (.str "release/"))
  let releaseBranch := prefx ++ ctx.newVersion
  emit (.log "Starting git flow release process...")
  let rbExists ← tryCatch
    (do
      let out ← execGitRead "git branch"
      pure (strIncludes releaseBranch out))
    (fun _ => pure false)
  if !rbExists then do
    emit (.log ("Creating release branch: " ++ releaseBranch))
    if !ctx.dryRun then
      let _ ← execGitWrite ("git flow release start " ++ ctx.newVersion)
      pure ()
  else do
    emit (.log ("Release branch " ++ releaseBranch ++ " already exists."))
    if !ctx.dryRun then
      let _ ← execGitWrite ("git checkout " ++ releaseBranch)
      pure ()
  if !ctx.dryRun then do
    emit (.fsWrite "package.json")
    emit (.fsWrite "CHANGELOG.md")
    let commitMsg := replaceAll (jvalToStr (jsOrVal (getKeyF cfg "commitMessage")
      (.str "release: update version to ${version} and changelog"))) "${version}" ctx.newVersion
    emit (.log "Committing updated files...")
    let _ ← execGitWrite "git add ."
    let _ ← execGitWrite ("git commit -m \"" ++ escapeQuotes commitMsg ++ "\"")
    let pushSuffix := pushSuffixOf cfg
    emit (.log "Pushing release branch...")
    tryCatch
      (do
        let _ ← execGitWrite ("git push origin HEAD" ++ pushSuffix)
        pure ())
      (fun m =>
        if hasNffMsg m then
          tryCatch
            (do
              let _ ← execGitWrite ("git pull --rebase origin " ++ releaseBranch)
              let _ ← execGitWrite ("git push origin HEAD" ++ pushSuffix)
              pure ())
            (fun _ => throwJs
              "Push after rebase failed. Please resolve conflicts and push manually.")
        else throwJs m)
    let tagMsg := replaceAll (jvalToStr (jsOrVal (getKeyF cfg "tagMessage")
      (.str ("Release-" ++ ctx.newVersion)))) "${version}" ctx.newVersion
    emit (.log ("Finishing git flow release: " ++ ctx.newVersion))
    let _ ← execGitWrite ("GIT_MERGE_AUTOEDIT=no GIT_EDITOR=true git flow release finish -m \""
      ++ tagMsg ++ "\" " ++ ctx.newVersion)
    emit (.log "Pushing all branches and tags...")
    let _ ← execGitWrite ("git push origin " ++ develop ++ pushSuffixOf cfg)
    let _ ← execGitWrite ("git push origin " ++ main ++ pushSuffixOf cfg)
    let tagName := gfTagName cfg ctx.newVersion
    let tagsOut ← execGitRead "git tag"
    if (gitTagLines tagsOut).contains tagName.data then
      let _ ← execGitWrite ("git push origin " ++ tagName ++ pushSuffixOf cfg)
      pure ()
    else
      emit (.warn ("Tag " ++ tagName ++ " does not exist locally. Skipping tag push."))
  else
    emit (.log ("[dry-run] Would perform git flow release for " ++ ctx.newVersion))
  emit (.log "Git flow release completed successfully.")

/-- The sample real-mode context used for the push-retry scenarios. -/
def ctxGF : Ctx :=
  ⟨"/w", false, false, false, "develop", "1.0.0", "1.1.0", none, some "minor", [],
   "proj", "2026-01-01", "v1.1.0", "", none⟩

/-- The queue prefix shared by the push scenarios: branch listing (empty),
`git flow release start`, `git add`, `git commit`, all succeeding. -/
def gfPre : List (Except String String) := [.ok "", .ok "", .ok "", .ok ""]

/-- The trace prefix produced up to and including the first push attempt. -/
def gfTracePre : List Eff :=
  [.log "Starting git flow release process...",
   .gitRead "git branch",
   .log "Creating release branch: release/1.1.0",
   .gitWrite "git flow release start 1.1.0",
   .fsWrite "package.json",
   .fsWrite "CHANGELOG.md",
   .log "Committing updated files...",
   .gitWrite "git add .",
   .gitWrite "git commit -m \"release: update version to 1.1.0 and changelog\"",
   .log "Pushing release branch...",
   .gitWrite "git push origin HEAD"]

/-! ## Run environment, plugins, hooks -/
/-- A loaded plugin, its lifecycle callbacks modelled as outcomes (the host
module system and the callbacks themselves are external code; a callback either
returns normally or throws with a message; context mutation by plugins is not
modelled). -/
structure PluginM where
  name : String
  init : Option (Except String Unit)
  beforeRelease : Option (Except String Unit)
  release : Option (Except String Unit)
  afterRelease : Option (Except String Unit)

/-- The run environment: the repository snapshot, host oracles and external
outcomes one invocation observes. `queue` feeds the workflow-phase command
results in order. -/
structure RunEnv where
  fs : FSys
  envv : List (String × String)
  cwd : String
  branch : String
  commits : List String
  latestTag : Option String
  originOk : Bool
  treeClean : Bool
  gitFlowOk : Bool
  upstreamOk : Bool
  localTags : List String
  remoteTagsRaw : String
  bumpAnswer : String
  preIdAnswer : String
  confirmAnswer : String
  dateOf : String → String
  ghRepoOk : Bool
  glRepoOk : Bool
  ghResult : Except String (Option String)
  glResult : Except String (Option String)
  npmLockExists : Bool
  plugins : List PluginM
  queue : List (Except String String)

/-- JS boolean-to-string for interpolation. -/
def boolStr : Bool → String
  | true => "true"
  | false => "false"

/-- The scalar entries of the release context in insertion order, as
hooks.js `interpolate` sees them (objects, arrays and nulls are skipped). -/
def ctxPairs (c : Ctx) : List (String × String) :=
  [("cwd", c.cwd), ("dryRun", boolStr c.dryRun), ("isCi", boolStr c.isCi),
   ("verbose", boolStr c.verbose), ("currentBranch", c.currentBranch),
   ("branchName", c.currentBranch), ("currentVersion", c.currentVersion),
   ("newVersion", c.newVersion), ("version", c.newVersion),
   ("latestVersion", c.currentVersion)] ++
  (match c.latestTag with | some t => [("latestTag", t)] | none => []) ++
  (match c.bump with | some b => [("bump", b)] | none => []) ++
  [("projectName", c.projectName), ("name", c.projectName),
   ("dateStr", c.dateStr), ("tagName", c.tagName)] ++
  (match c.releaseUrl with | some u => [("releaseUrl", u)] | none => []) ++
  [("changelogText", c.changelogText), ("changelog", c.changelogText)]

/-- Model of `loadPlugins(cwd, config.plugins)` (plugins.js lines 22-45): the
configured module paths resolve to the host-provided plugin list; an empty or
non-array configuration loads nothing. -/
def loadPluginsM (env : RunEnv) (v : Option JVal) : List PluginM :=
  match v with
  | some (.arr .nil) => []
  | some (.arr _) => env.plugins
  | _ => []

/-- Select a lifecycle callback by name. -/
def pluginMethod (p : PluginM) : String → Option (Except String Unit)
  | "init" => p.init
  | "beforeRelease" => p.beforeRelease
  | "release" => p.release
  | "afterRelease" => p.afterRelease
  | _ => none

/-- Embedding of `runPluginLifecycle(plugins, method, context)` (plugins.js
lines 53-64): each implemented callback runs; a throwing callback is caught and
logged as a warning and never aborts the run. -/
def runPluginLifecycleM (method : String) : List PluginM → M Unit
  | [] => pure ()
  | p :: rest => do
    (match pluginMethod p method with
     | none => pure ()
     | some (.ok ()) => pure ()
     | some (.error e) =>
       emit (.warn ("Plugin " ++ p.name ++ " " ++ method ++ " failed: " ++ e)))
    runPluginLifecycleM method rest

/-- Embedding of `runPluginLifecycleAsync` (plugins.js lines 73-86): awaited in
registration order, failures caught and logged, same observable behavior. -/
def runPluginLifecycleAsyncM (method : String) (ps : List PluginM) : M Unit :=
  runPluginLifecycleM method ps

/-- The hook command list: `Array.isArray(commands) ? commands :
(commands ? [commands] : [])` (hooks.js line 27). -/
def hookCmdList : Option JVal → List JVal
  | some (.arr a) => jarrList a
  | some v => if jsTruthy v then [v] else []
  | none => []

/-- The loop of `runHooks` (hooks.js lines 28-41): each command is
interpolated, then logged (dry-run) or executed, a failure aborting with
`Hook failed: <line>. <message>`; a non-string entry makes `interpolate`
itself throw before the dry-run check. -/
def runHooksGo (pairs : List (String × String)) (dryRun : Bool) : List JVal → M Unit
  | [] => pure ()
  | c :: rest => do
    match c with
    | .str cs =>
      let line := interp cs pairs
      if dryRun then emit (.log ("[dry-run] Would run: " ++ line))
      else
        tryCatch
          (do
            let _ ← execShell line
            pure ())
          (fun e => throwJs ("Hook failed: " ++ line ++ ". " ++ e))
    | _ => throwJs "cmd.replace is not a function"
    runHooksGo pairs dryRun rest

/-- Embedding of `runHooks(commands, context, dryRun)`. -/
def runHooksM (cmds : Option JVal) (pairs : List (String × String)) (dryRun : Bool) : M Unit :=
  runHooksGo pairs dryRun (hookCmdList cmds)

/-! ## changelog.js : conventional parsing and formatting -/
/-- A parsed conventional commit line. -/
structure ConvCommit where
  type : String
  scope : Option (List Char)
  message : List Char

/-- Tail of the conventional-commit regex after type and scope: a colon,
optional whitespace, and a nonempty remainder; the later `.trim()` of the
message makes it the trimmed remainder. -/
def parseConvTail (w : List Char) (scope : Option (List Char)) (r : List Char) :
    Option ConvCommit :=
  match r with
  | ':' :: r4 => if r4 ≠ [] then some ⟨⟨w.map Char.toLower⟩, scope, trimL r4⟩ else none
  | _ => none

/-- Embedding of `parseConventional(line)` (changelog.js lines 68-72):
`^(\w+)(?:\(([^)]+)\))?:\s*(.+)$` with the message trimmed. -/
def parseConventional (line : List Char) : Option ConvCommit :=
  let w := line.takeWhile isWordC
  let r1 := line.dropWhile isWordC
  if w = [] then none
  else
    match r1 with
    | '(' :: r2 =>
      let inner := r2.takeWhile (fun c => c ≠ ')')
      let r3 := r2.dropWhile (fun c => c ≠ ')')
      (match r3 with
       | ')' :: r4 => if inner ≠ [] then parseConvTail w (some inner) r4 else none
       | _ => none)
    | _ => parseConvTail w none r1

/-- String membership in a JSON array (`includeTypes.includes(type)`). -/
def jarrHasStr (s : String) : JArr → Bool
  | .nil => false
  | .cons (.str t) rest => t = s || jarrHasStr s rest
  | .cons _ rest => jarrHasStr s rest

/-- The group headers `CONVENTIONAL_GROUP_HEADERS` with the capitalization
fallback (changelog.js lines 55-65 and 103). -/
def headerOf (ty : String) : String :=
  if ty = "feat" then "Features"
  else if ty = "fix" then "Bug Fixes"
  else if ty = "docs" then "Documentation"
  else if ty = "style" then "Styles"
  else if ty = "refactor" then "Code Refactoring"
  else if ty = "perf" then "Performance"
  else if ty = "test" then "Tests"
  else if ty = "chore" then "Chores"
  else if ty = "ci" then "CI"
  else
    match ty.data with
    | [] => ""
    | c :: r => ⟨Char.toUpper c :: r⟩

/-- Append a line to its type group, preserving first-seen group order
(the `Map` of changelog.js lines 96-101). -/
def addGroup : List (String × List String) → String → String → List (String × List String)
  | [], ty, line => [(ty, [line])]
  | (t, ls) :: rest, ty, line =>
    if t = ty then (t, ls ++ [line]) :: rest else (t, ls) :: addGroup rest ty line

/-- Build the insertion-ordered type groups. -/
def groupCommits : List String → List (String × List String) → List (String × List String)
  | [], acc => acc
  | line :: rest, acc =>
    groupCommits rest (addGroup acc
      (match parseConventional line.data with
       | some p => p.type
       | none => "other") line)

/-- Embedding of `filterAndFormatCommits(commits, options)` (changelog.js
lines 80-106): the allow-list filter never drops unclassified lines; without
grouping a flat bulleted list, with grouping one section per type. -/
def filterAndFormatCommits (commits : List String) (includeTypes : JVal)
    (groupByType : Bool) : String :=
  let list :=
    match includeTypes with
    | .arr (.cons x a) =>
      commits.filter (fun line =>
        match parseConventional line.data with
        | none => true
        | some p => jarrHasStr p.type (.cons x a))
    | _ => commits
  if !groupByType then
    String.intercalate "\n" (list.map (fun c => "- " ++ c))
  else
    String.intercalate "\n\n" ((groupCommits list []).map (fun g =>
      "### " ++ headerOf g.1 ++ "\n\n" ++
        String.intercalate "\n" (g.2.map (fun c => "- " ++ c))))

/-- Trimmed string (JS `s.trim()`). -/
def trimS (s : String) : String := ⟨trimL s.data⟩

/-- Nullish coalescing `a ?? b` on an optional property. -/
def nn (o : Option JVal) (d : JVal) : JVal :=
  match o with
  | some .null => d
  | some v => v
  | none => d

/-- Property of an optional object. -/
def optGet (o : Option JVal) (k : String) : Option JVal :=
  match o with
  | some v => getVal v k
  | none => none

/-- Truthiness of an optional property (`if (config.x?.y)`). -/
def truthyProp (o : Option JVal) : Bool :=
  match o with
  | some v => jsTruthy v
  | none => false

/-- Embedding of `runChangelogCommand(cwd, command, vars)` (changelog.js lines
115-123): interpolate the endpoints and run the command; `(out && out.trim())
|| ''` is the trimmed output. -/
def runChangelogCommandM (command : String) (from2 to2 version latestVersion : String) :
    M String := do
  let cmd := interp command
    [("from", from2), ("to", to2), ("version", version), ("latestVersion", latestVersion)]
  let out ← execShell cmd
  pure (trimS out)

/-- Embedding of `getChangelogText(context)` (changelog.js lines 129-146):
a configured string command replaces the built-in algorithm entirely. -/
def getChangelogTextM (cfg : JFields) (version latestVersion : String)
    (latestTag : Option String) (commits : List String) : M String :=
  let ch := getKeyF cfg "changelog"
  match optGet ch "command" with
  | some (.str c) =>
    if c ≠ "" then
      runChangelogCommandM c (latestTag.getD "") "HEAD" version latestVersion
    else
      pure (filterAndFormatCommits commits (nn (optGet ch "includeTypes") .null)
        (obsEqTrue (optGet ch "groupByType")))
  | _ =>
    pure (filterAndFormatCommits commits (nn (optGet ch "includeTypes") .null)
      (obsEqTrue (optGet ch "groupByType")))

/-- Embedding of `getReleaseNotesBody(context)` (changelog.js lines 152-168). -/
def getReleaseNotesBodyM (cfg : JFields) (version dateStr latestVersion : String)
    (latestTag : Option String) (commits : List String) : M String :=
  let ch := getKeyF cfg "changelog"
  let fallback := "## " ++ version ++ " - " ++ dateStr ++ "\n\n" ++
    String.intercalate "\n" (commits.map (fun c => "- " ++ c))
  match optGet ch "releaseNotesCommand" with
  | some (.str c) =>
    if c ≠ "" then do
      let body ← runChangelogCommandM c (latestTag.getD "") "HEAD" version latestVersion
      pure (if body ≠ "" then body else fallback)
    else
      pure ("## " ++ version ++ " - " ++ dateStr ++ "\n\n" ++
        filterAndFormatCommits commits (nn (optGet ch "includeTypes") .null)
          (obsEqTrue (optGet ch "groupByType")))
  | _ =>
    pure ("## " ++ version ++ " - " ++ dateStr ++ "\n\n" ++
      filterAndFormatCommits commits (nn (optGet ch "includeTypes") .null)
        (obsEqTrue (optGet ch "groupByType")))

/-! ## npm.js and the provider clients -/
/-- Embedding of `npmPublish(cwd, npmConfig, dryRun)` (npm.js lines 14-35):
no failure is caught here — a failing `npm install` or `npm publish` throws. -/
def npmPublishM (env : RunEnv) (npmCfg : Option JVal) (dryRun : Bool) : M Unit := do
  let publishPath := jvalToStr (nn (optGet npmCfg "publishPath") (.str "."))
  let dir := if isAbsolutePath publishPath then publishPath else pathJoin env.cwd publishPath
  let tagJ := nn (optGet npmCfg "tag") (.str "latest")
  let otpJ := nn (optGet npmCfg "otp")
    (match envGet env.envv "NPM_OTP" with
     | some s => .str s
     | none => .null)
  if dryRun then
    emit (.log ("[dry-run] Would run: npm publish in " ++ dir ++
      (if jvalToStr tagJ ≠ "latest" then " --tag " ++ jvalToStr tagJ else "")))
  else do
    if env.npmLockExists then do
      emit (.log "Syncing package-lock.json...")
      let _ ← execNpm "npm install"
      pure ()
    let args := ["publish"] ++
      (if jsTruthy tagJ then ["--tag", jvalToStr tagJ] else []) ++
      (if jsTruthy otpJ then ["--otp", jvalToStr otpJ] else [])
    let _ ← execNpm ("npm " ++ String.intercalate " " args)
    pure ()

/-- Embedding of `createGitHubRelease(...)` (github.js lines 80-108): skip with
a warning when the token or the repository is missing, log under dry-run, and
otherwise resolve to the release URL or reject (the repository detection from
the origin URL and the HTTP exchange are collaborator outcomes in the
environment). -/
def createGitHubReleaseM (env : RunEnv) (ghCfg : Option JVal)
    (tagName releaseName : String) (dryRun : Bool) : M (Option String) := do
  let tokenRef := jvalToStr (jsOrVal (optGet ghCfg "tokenRef") (.str "GITHUB_TOKEN"))
  let token := (envGet env.envv tokenRef).getD ""
  if token = "" then do
    emit (.warn ("GitHub token not found (" ++ tokenRef ++ "). Skipping GitHub release."))
    pure none
  else if !env.ghRepoOk then do
    emit (.warn "Could not detect GitHub repo from origin. Skipping GitHub release.")
    pure none
  else if dryRun then do
    emit (.log ("[dry-run] Would create GitHub release " ++ releaseName ++ " for " ++ tagName))
    pure none
  else do
    emit (.netPost "github createRelease")
    match env.ghResult with
    | .ok url => do
      emit (.log "GitHub release created.")
      pure url
    | .error m => throwJs m

/-- Embedding of `createGitLabRelease(...)` (gitlab.js lines 207-233). -/
def createGitLabReleaseM (env : RunEnv) (glCfg : Option JVal)
    (tagName releaseName : String) (dryRun : Bool) : M (Option String) := do
  let tokenRef := jvalToStr (jsOrVal (optGet glCfg "tokenRef") (.str "GITLAB_TOKEN"))
  let token := (envGet env.envv tokenRef).getD ""
  if token = "" then do
    emit (.warn ("GitLab token not found (" ++ tokenRef ++ "). Skipping GitLab release."))
    pure none
  else if !env.glRepoOk then do
    emit (.warn "Could not detect GitLab repo from origin. Skipping GitLab release.")
    pure none
  else if dryRun then do
    emit (.log ("[dry-run] Would create GitLab release " ++ releaseName ++ " for " ++ tagName))
    pure none
  else do
    emit (.netPost "gitlab createRelease")
    match env.glResult with
    | .ok url => do
      emit (.log "GitLab release created.")
      pure url
    | .error m => throwJs m

/-! ## cli.js : the publication phase (lines 175-198) -/
/-- Embedding of the publication tail of `run()` (cli.js lines 175-198):
release notes, the uncaught `npmPublish` call, the GitHub and GitLab release
promises with their `.catch` handlers maintaining `context.releaseUrl`, the
asynchronous `release` plugin phase, the `afterRelease` hooks and plugin
phase. Returns the final `context.releaseUrl`. -/
def pubPhase (env : RunEnv) (cfg : JFields) (ctx : Ctx) (plugins : List PluginM) :
    M (Option String) := do
  let releaseName := "Release " ++ ctx.newVersion
  let releaseBody ← getReleaseNotesBodyM cfg ctx.newVersion ctx.dateStr
    ctx.currentVersion env.latestTag ctx.commits
  let _ := releaseBody
  if truthyProp (getVal2 cfg "npm" "publish") then
    npmPublishM env (getKeyF cfg "npm") false
  let url1 ←
    if truthyProp (getVal2 cfg "github" "release") then
      tryCatch
        (createGitHubReleaseM env (getKeyF cfg "github") ctx.tagName releaseName false)
        (fun m => do
          emit (.warn ("GitHub release failed: " ++ m))
          pure none)
    else pure none
  let urlFinal ←
    if truthyProp (getVal2 cfg "gitlab" "release") then
      tryCatch
        (do
          let u ← createGitLabReleaseM env (getKeyF cfg "gitlab") ctx.tagName releaseName false
          pure (match u with
            | some x => (match url1 with
              | some y => some y
              | none => some x)
            | none => url1))
        (fun m => do
          emit (.warn ("GitLab release failed: " ++ m))
          pure url1)
    else pure url1
  runPluginLifecycleAsyncM "release" plugins
  runHooksM (getVal2 cfg "hooks" "afterRelease") (ctxPairs { ctx with releaseUrl := urlFinal }) false
  runPluginLifecycleM "afterRelease" plugins
  pure urlFinal

/-- The publication tail followed by the success log of cli.js line 201, mapped
to the process exit code by the final `.catch`. -/
def runPub (env : RunEnv) (cfg : JFields) (ctx : Ctx) (plugins : List PluginM)
    (q : List (Except String String)) : Nat × List Eff × Option String :=
  match (do
    let u ← pubPhase env cfg ctx plugins
    emit (.log "Release completed successfully.")
    pure u : M (Option String)) ⟨q, []⟩ with
  | (.ok u, s) => (0, s.trace, u)
  | (.error (.exit n), s) => (n, s.trace, none)
  | (.error (.fail m), s) => (1, s.trace ++ [.errlog ("Error: " ++ m)], none)

/-! ## prompts.js : pure answer resolution

The interactive readline collaborator is modelled by raw answer strings in the
environment; the resolution logic applied to an answer is the source's. -/
/-- Model of `parseInt(s, 10)`: leading whitespace, optional sign, then the
longest digit prefix; no digits is `NaN` (`none`). -/
def parseIntJs (s : String) : Option Int :=
  let t := s.data.dropWhile isWsC
  match t with
  | '-' :: r =>
    let ds := r.takeWhile isDigitC
    if ds ≠ [] then some (-(decVal ds : Int)) else none
  | '+' :: r =>
    let ds := r.takeWhile isDigitC
    if ds ≠ [] then some (decVal ds) else none
  | _ =>
    let ds := t.takeWhile isDigitC
    if ds ≠ [] then some (decVal ds) else none

/-- The value column of `BUMP_OPTIONS` (prompts.js lines 5-11). -/
def bumpOptionValue (n : Int) : String :=
  if n = 1 then "patch"
  else if n = 2 then "minor"
  else if n = 3 then "major"
  else if n = 4 then "hotfix"
  else "prerelease"

/-- Bump kind as the string `suggestBumpFromCommits` would have returned. -/
def bumpStr : Bump → String
  | .major => "major"
  | .minor => "minor"
  | .patch => "patch"

/-- Default option index: the suggested kind's position, else 1. -/
def defaultIndexOf : Option Bump → Nat
  | some .patch => 1
  | some .minor => 2
  | some .major => 3
  | none => 1

/-- Model of `selectBumpType(currentVersion, suggested, defaultBump, isCi)`
(prompts.js lines 22-42): CI returns the default without prompting; otherwise
the typed answer (or the default index) picks an option, and anything else
falls back to the suggestion or the default. -/
def selectBumpTypeV (env : RunEnv) (suggested : Option Bump) (defaultBump : String)
    (isCi : Bool) : String :=
  if isCi then defaultBump
  else
    let answer := env.bumpAnswer
    let trimmed := trimS (if answer ≠ "" then answer else ⟨natChars (defaultIndexOf suggested)⟩)
    match parseIntJs trimmed with
    | some n =>
      if 1 ≤ n ∧ n ≤ 5 then bumpOptionValue n
      else
        match suggested with
        | some b => bumpStr b
        | none => defaultBump
    | none =>
      match suggested with
      | some b => bumpStr b
      | none => defaultBump

/-- Model of `selectPreId(isCi)` (prompts.js lines 49-62). -/
def selectPreIdV (env : RunEnv) (isCi : Bool) : Option String :=
  if isCi then none
  else
    let id := trimS env.preIdAnswer
    if id ≠ "" then some id else none

/-- Model of `confirmRelease(summary, isCi, yes)` (prompts.js lines 72-96). -/
def confirmV (env : RunEnv) (isCi yes : Bool) : Bool :=
  if isCi || yes then true
  else
    let a := ⟨(trimL (if env.confirmAnswer ≠ "" then env.confirmAnswer else "y").data).map
      Char.toLower⟩
    a = "y" || a = "yes" || a = ""

/-! ## cli.js : bump resolution (lines 74-105) -/
/-- JS `a || b` on an optional string against a default. -/
def jsOrStrD (o : Option String) (d : String) : String :=
  match o with
  | some s => if s ≠ "" then s else d
  | none => d

/-- The `config.preRelease?.id` read. -/
def cPreOf (cfg : JFields) : JVal :=
  match getKeyF cfg "preRelease" with
  | some pr =>
    (match getVal pr "id" with
     | some v => v
     | none => .null)
  | none => .null

/-- A JSON value as the `preId` argument of `increaseVersion`. -/
def jsPreOfJ : JVal → JsPre
  | .null => .null
  | .str s => .str s
  | _ => .nonString

/-- `config.ci ?? argv.ci` / `config.dryRun ?? argv.dryRun` (cli.js lines
21-22), used as a boolean condition. -/
def nullishB (o : Option JVal) (alt : Bool) : Bool :=
  match o with
  | some .null => alt
  | some v => jsTruthy v
  | none => alt

/-- Outcome of the bump-resolution promise steps (cli.js lines 91-105):
the resolved bump kind, the resolved pre-release id, and whether each prompt
would have been shown. -/
structure BumpRes where
  bump : Option String
  preId : JVal
  promptedBump : Bool
  promptedPre : Bool

/-- Embedding of cli.js lines 74-105: the argv bump, else the config bump in
CI or when configured, else the interactive selection; the `prerelease` choice
collapses to `patch`, asking for a pre-release id when none is set and the run
is interactive. -/
def resolveBumpV (env : RunEnv) (cfg : JFields) (av : ArgvOut) (isCi : Bool)
    (suggested : Option Bump) (noIncrement : Bool) : BumpRes :=
  let bump0 := av.bump
  let bump1 :=
    if bump0 = none ∧ (isCi ∨ truthyProp (getKeyF cfg "bump")) then
      some (jvalToStr (jsOrVal (getKeyF cfg "bump") (.str "patch")))
    else bump0
  let preId0 := jsOrJ av.preid (jsOrJ (cPreOf cfg) .null)
  if noIncrement then ⟨none, preId0, false, false⟩
  else
    let prompted := bump1 = none ∧ ¬isCi
    let resolved :=
      match bump1 with
      | some b => b
      | none => selectBumpTypeV env suggested "patch" isCi
    if resolved = "prerelease" then
      if ¬jsTruthy preId0 ∧ ¬isCi then
        ⟨some "patch",
         (match selectPreIdV env isCi with
          | some s => .str s
          | none => .null), prompted, true⟩
      else ⟨some "patch", preId0, prompted, false⟩
    else ⟨some resolved, preId0, prompted, false⟩

/-- The rendering of the resolved bump in the dry-run log line. -/
def bumpWord (r : BumpRes) : String :=
  match r.bump with
  | some b => b
  | none => "null"

/-! ## git.js helpers as monadic reads and the linear workflow -/
/-- Embedding of `ensureOriginRemote()` (git.js lines 83-89). -/
def ensureOriginRemoteM (env : RunEnv) : M Unit := do
  emit (.gitRead "git remote get-url origin")
  if env.originOk then pure ()
  else throwJs "Remote \"origin\" does not exist."

/-- Embedding of `ensureCleanWorkingTree()`. -/
def ensureCleanM (env : RunEnv) : M Unit := do
  emit (.gitRead "git status --porcelain")
  if env.treeClean then pure ()
  else throwJs "You have uncommitted changes. Please commit or stash them before running the release script."

/-- Embedding of `ensureGitFlowInstalled()`. -/
def ensureGitFlowM (env : RunEnv) : M Unit := do
  emit (.gitRead "git flow version")
  if env.gitFlowOk then pure ()
  else throwJs "git flow is not installed. Please install it before running the release script."

/-- Embedding of `ensureUpstream(branch, requireUpstream)`. -/
def ensureUpstreamM (env : RunEnv) (branch : String) (req : Bool) : M Unit :=
  if !req then pure ()
  else do
    emit (.gitRead ("git rev-parse --abbrev-ref \"" ++ branch ++ "@{upstream}\""))
    if env.upstreamOk then pure ()
    else throwJs ("Branch \"" ++ branch ++
      "\" has no upstream. Push the branch first or set git.requireUpstream: false.")

/-- Embedding of `getCurrentBranch()` as a snapshot read. -/
def getCurrentBranchM (env : RunEnv) : M String := do
  emit (.gitRead "git branch --show-current")
  pure env.branch

/-- Embedding of `getLatestTag()` as a snapshot read (its internal describe /
rev-parse / tag-listing fallbacks are collapsed into one read of the
environment's latest tag). -/
def getLatestTagM (env : RunEnv) : M (Option String) := do
  emit (.gitRead "git describe --tags --abbrev=0")
  pure env.latestTag

/-- Embedding of `getNewCommits()` as a snapshot read of the commit subjects
since the last release point. -/
def getNewCommitsM (env : RunEnv) : M (List String) := do
  emit (.gitRead "git log --oneline --no-merges")
  pure env.commits

/-- Embedding of `getCurrentVersion(cwd)` (version.js lines 53-60): reads and
parses `package.json`, failing when it is absent or unparseable. A truthy
non-string `version` is rendered as a string here (the JS would instead crash
later, inside `increaseVersion`). -/
def getCurrentVersionE (env : RunEnv) : Except String (String × String) :=
  match fsLookup env.fs (pathJoin env.cwd "package.json") with
  | none => .error "ENOENT: no such file or directory, open package.json"
  | some .bad => .error "Unexpected token in JSON"
  | some (.ok pkg) =>
    .ok (jvalToStr (jsOrVal (getVal pkg "version") (.str "0.0.0")),
      jvalToStr (jsOrVal (getVal pkg "name") (.str "project")))

/-- Embedding of `ensureTagNotExists(version, tagConfig, dryRun)` (git.js):
delete a same-named local and remote tag when present; every failure inside is
swallowed. -/
def ensureTagNotExistsM (env : RunEnv) (version : String) (tagCfg : Option JVal)
    (dryRun : Bool) : M Unit :=
  tryCatch
    (do
      let prefxJ := jsOrVal (optGet tagCfg "prefix") (.str "v")
      let tagName := if jsTruthy prefxJ then jvalToStr prefxJ ++ version else version
      emit (.gitRead "git tag")
      if env.localTags.contains tagName then
        if dryRun then emit (.log ("[dry-run] Would delete local tag " ++ tagName))
        else do
          let _ ← execGitWrite ("git tag -d " ++ tagName)
          emit (.log ("Deleted local tag " ++ tagName))
      emit (.gitRead "git ls-remote --tags origin")
      if strIncludes ("refs/tags/" ++ tagName) env.remoteTagsRaw then
        if dryRun then emit (.log ("[dry-run] Would delete remote tag " ++ tagName))
        else do
          let _ ← execGitWrite ("git push origin :refs/tags/" ++ tagName)
          emit (.log ("Deleted remote tag " ++ tagName)))
    (fun _ => pure ())

/-- The push-argument suffix of git.js `pushBranch`/`pushTag`. -/
def pushExtraOf (o : Option JVal) : String :=
  match (jarrList (cfgArr o)).filter jsTruthy with
  | [] => ""
  | args => " " ++ String.intercalate " " (args.map jvalToStr)

/-- Embedding of `createTag(version, tagConfig, tagMessage, dryRun)` (git.js). -/
def createTagM (version : String) (tagCfg : JVal) (tagMessage : Option JVal)
    (dryRun : Bool) : M String := do
  let prefxJ := jsOrVal (getVal tagCfg "prefix") (.str "v")
  let tagName := if jsTruthy prefxJ then jvalToStr prefxJ ++ version else version
  let msg := replaceAll (jvalToStr (jsOrVal tagMessage (.str ("Release " ++ version))))
    "${version}" version
  if dryRun then do
    emit (.log ("[dry-run] Would create tag " ++ tagName))
    pure tagName
  else do
    let _ ← execGitWrite ("git tag -a " ++ tagName ++ " -m \"" ++ escapeQuotes msg ++ "\"")
    pure tagName

/-- Embedding of `performLinearRelease(context)` (linearRelease.js lines
16-48): update files, commit, tag, push branch then tag on the current
branch. -/
def performLinearRelease (env : RunEnv) (cfg : JFields) (ctx : Ctx) : M Unit := do
  emit (.log "Starting linear release (no git-flow)...")
  let commitMessage := interp (jvalToStr (jsOrVal (getKeyF cfg "commitMessage")
    (.str "release: update version to ${version} and changelog"))) [("version", ctx.newVersion)]
  if !ctx.dryRun then do
    emit (.fsWrite "package.json")
    emit (.fsWrite "CHANGELOG.md")
    emit (.log "Committing...")
    let _ ← execGitWrite "git add ."
    let _ ← execGitWrite ("git commit -m \"" ++ escapeQuotes commitMessage ++ "\"")
    pure ()
  else
    emit (.log "[dry-run] Would update package.json and CHANGELOG, then commit.")
  let tagName ← createTagM ctx.newVersion (jsOrVal (getKeyF cfg "tag") (.obj .nil))
    (getKeyF cfg "tagMessage") ctx.dryRun
  let extra := pushExtraOf (getVal2 cfg "git" "pushArgs")
  if !ctx.dryRun then do
    let branch ← getCurrentBranchM env
    let _ ← execGitWrite ("git push origin " ++ branch ++ extra)
    let _ ← execGitWrite ("git push origin " ++ tagName ++ extra)
    pure ()
  else
    emit (.log "[dry-run] Would push branch and tag.")
  emit (.log "Linear release completed successfully.")

/-! ## cli.js : run() -/
/-- Branch gate of cli.js lines 68-72: releasing is allowed unless
`allowReleaseFrom` is a nonempty array not containing the current branch. -/
def branchAllowedB (cfg : JFields) (br : String) : Bool :=
  match getKeyF cfg "allowReleaseFrom" with
  | some (.arr (.cons x a)) => jarrHasStr br (.cons x a)
  | _ => true

/-- The interpolation pairs of the init context (cli.js line 30). -/
def initPairs (env : RunEnv) (dryRun isCi verbose : Bool) : List (String × String) :=
  [("cwd", env.cwd), ("dryRun", boolStr dryRun), ("isCi", boolStr isCi),
   ("verbose", boolStr verbose)]

/-- Embedding of `run()` (cli.js lines 17-207): configuration, plugin and hook
initialization, the info-only flags, the preconditions, bump resolution, the
dry-run short circuit, confirmation, tag pre-removal, the selected workflow,
post-workflow hooks and the publication tail. -/
def runModelM (env : RunEnv) (p : ParsedArgv) : M Unit := do
  match loadConfigWith env.fs env.envv env.cwd p with
  | .error (.error m) => throwJs m
  | .ok (cfg, av) =>
    let dryRun := nullishB (getKeyF cfg "dryRun") av.dryRun
    let isCi := nullishB (getKeyF cfg "ci") av.ci
    let useGitFlow := !obsEqFalse (getKeyF cfg "gitFlow") && !av.noGitFlow
    if dryRun then emit (.log "Running in dry-run mode. No changes will be made.")
    let plugins := loadPluginsM env (getKeyF cfg "plugins")
    runPluginLifecycleM "init" plugins
    runHooksM (getVal2 cfg "hooks" "beforeInit") (initPairs env dryRun isCi av.verbose) dryRun
    match getCurrentVersionE env with
    | .error m => throwJs m
    | .ok (currentVersion, projectName) =>
      if av.releaseVersion then do
        let bumpJ := jsOrJ (match av.bump with | some b => .str b | none => .null)
          (jsOrJ (jsOrVal (getKeyF cfg "bump") .null) (.str "patch"))
        let preIdJ := jsOrJ av.preid (jsOrJ (cPreOf cfg) .null)
        emit (.log ⟨increaseVersionL currentVersion.data (jvalToStr bumpJ) (jsPreOfJ preIdJ)⟩)
        exitProc 0
      else if av.changelog then do
        ensureOriginRemoteM env
        let commits ← getNewCommitsM env
        let latestTag ← getLatestTagM env
        let text ← getChangelogTextM cfg currentVersion currentVersion latestTag commits
        emit (.log text)
        exitProc 0
      else do
        ensureOriginRemoteM env
        (if truthyProp (getKeyF cfg "requireCleanWorkingDir") then ensureCleanM env
         else pure () : M Unit)
        (if useGitFlow then ensureGitFlowM env else pure () : M Unit)
        let currentBranch ← getCurrentBranchM env
        ensureUpstreamM env currentBranch (obsEqTrue (getVal2 cfg "git" "requireUpstream"))
        if branchAllowedB cfg currentBranch then pure ()
        else do
          emit (.errlog ("Cannot release from branch \"" ++ currentBranch ++ "\". Allowed: " ++
            String.intercalate ", " ((jarrList (cfgArr (getKeyF cfg "allowReleaseFrom"))).map
              jvalToStr) ++ "."))
          exitProc 1
        let commits ← getNewCommitsM env
        let suggested :=
          if truthyProp (getKeyF cfg "conventionalCommits") then suggestBumpFromCommits commits
          else none
        let noIncrement := av.noIncrement
        let effectiveYes := av.yes || av.onlyVersion
        let r := resolveBumpV env cfg av isCi suggested noIncrement
        (if r.promptedBump then emit (.prompt "selectBumpType") else pure () : M Unit)
        (if r.promptedPre then emit (.prompt "selectPreId") else pure () : M Unit)
        let newVersion :=
          if noIncrement then currentVersion
          else ⟨increaseVersionL currentVersion.data (jsOrStrD r.bump "patch") (jsPreOfJ r.preId)⟩
        let locale := jvalToStr (jsOrVal (getVal2 cfg "changelog" "dateLocale") (.str "fa-IR"))
        let dateStr := env.dateOf locale
        if dryRun then do
          emit (.log ("[dry-run] Would release " ++ newVersion ++ " (bump: " ++
            (if noIncrement then "none" else bumpWord r) ++ ") from " ++ currentBranch ++ "."))
          exitProc 0
        else do
          if !(isCi || effectiveYes) then emit (.prompt "confirmRelease")
          if !confirmV env isCi effectiveYes then do
            emit (.log "Release cancelled.")
            exitProc 0
          else do
            let tagCfgJ := jsOrVal (getKeyF cfg "tag") (.obj .nil)
            let tagPrefixJ := nn (getVal tagCfgJ "prefix") (.str "v")
            let tagName := if jsTruthy tagPrefixJ then jvalToStr tagPrefixJ ++ newVersion
              else newVersion
            let latestTag ← getLatestTagM env
            let changelogText ← getChangelogTextM cfg newVersion currentVersion latestTag commits
            let ctx : Ctx := ⟨env.cwd, false, isCi, av.verbose, currentBranch, currentVersion,
              newVersion, latestTag, r.bump, commits, projectName, dateStr, tagName,
              changelogText, none⟩
            runPluginLifecycleM "beforeRelease" plugins
            runHooksM (getVal2 cfg "hooks" "beforeRelease") (ctxPairs ctx) false
            if truthyProp (getVal tagCfgJ "deleteIfExists") then
              ensureTagNotExistsM env newVersion (getKeyF cfg "tag") false
            if useGitFlow then do
              if truthyProp (getKeyF cfg "syncBranches") then syncBranches cfg ctx
              performGitFlowRelease cfg ctx
            else
              performLinearRelease env cfg ctx
            runHooksM (getVal2 cfg "hooks" "afterGitRelease") (ctxPairs ctx) false
            runHooksM (getVal2 cfg "hooks" "afterBump") (ctxPairs ctx) false
            let _ ← pubPhase env cfg ctx plugins
            emit (.log "Release completed successfully.")

/-- The process outcome of one invocation: exit code and effect trace. -/
def runModel (env : RunEnv) (p : ParsedArgv) : Nat × List Eff :=
  runToExit (runModelM env p) env.queue

/-- The next version the pipeline decides on (cli.js line 107) as a pure
function of the environment and parsed flags, shared with `runModelM`. -/
def decisionOf (env : RunEnv) (p : ParsedArgv) : Option String :=
  match loadConfigWith env.fs env.envv env.cwd p with
  | .error _ => none
  | .ok (cfg, av) =>
    match getCurrentVersionE env with
    | .error _ => none
    | .ok (cv, _) =>
      let isCi := nullishB (getKeyF cfg "ci") av.ci
      let suggested :=
        if truthyProp (getKeyF cfg "conventionalCommits") then
          suggestBumpFromCommits env.commits
        else none
      let r := resolveBumpV env cfg av isCi suggested av.noIncrement
      some (if av.noIncrement then cv
        else ⟨increaseVersionL cv.data (jsOrStrD r.bump "patch") (jsPreOfJ r.preId)⟩)

/-- Log, warning and error-line mention of a string. -/
def effMentions (s : String) : Eff → Bool
  | .log m => strIncludes s m
  | .warn m => strIncludes s m
  | .errlog m => strIncludes s m
  | _ => false

/-! ## C9: publication-phase failure handling -/
/-- Environment for the publication scenarios: both provider tokens present,
both repositories detected, no lockfile, no plugins. -/
def envPub : RunEnv where
  fs := ⟨[]⟩
  envv := [("GITHUB_TOKEN", "ght"), ("GITLAB_TOKEN", "glt")]
  cwd := "/w"
  branch := "develop"
  commits := []
  latestTag := none
  originOk := true
  treeClean := true
  gitFlowOk := true
  upstreamOk := true
  localTags := []
  remoteTagsRaw := ""
  bumpAnswer := ""
  preIdAnswer := ""
  confirmAnswer := ""
  dateOf := fun _ => "2026-01-01"
  ghRepoOk := true
  glRepoOk := true
  ghResult := .ok (some "https://github.example/rel")
  glResult := .ok (some "https://gitlab.example/rel")
  npmLockExists := false
  plugins := []
  queue := []

/-- Configuration with both hosted providers enabled and npm publish off. -/
def cfgProviders : JFields := JFields.ofList [
  ("github", .obj (JFields.ofList [("release", .bool true)])),
  ("gitlab", .obj (JFields.ofList [("release", .bool true)]))]

/-- Configuration with npm publish and both hosted providers enabled. -/
def cfgNpmPub : JFields := JFields.ofList [
  ("npm", .obj (JFields.ofList [("publish", .bool true)])),
  ("github", .obj (JFields.ofList [("release", .bool true)])),
  ("gitlab", .obj (JFields.ofList [("release", .bool true)]))]

/-! ## C1 groundwork: the dry-run execution trace of run() -/
/-- Warning lines emitted by one plugin lifecycle phase. -/
def pluginTrace (method : String) : List PluginM → List Eff
  | [] => []
  | p :: rest =>
    (match pluginMethod p method with
     | some (.error e) => [Eff.warn ("Plugin " ++ p.name ++ " " ++ method ++ " failed: " ++ e)]
     | _ => []) ++ pluginTrace method rest

/-- Every entry of a hook command list is a string. -/
def hookStringsB : List JVal → Bool
  | [] => true
  | .str _ :: rest => hookStringsB rest
  | _ :: _ => false

/-- Log lines of a dry-run pass over a hook command list. -/
def hooksDryTrace (pairs : List (String × String)) : List JVal → List Eff
  | [] => []
  | .str cs :: rest =>
    Eff.log ("[dry-run] Would run: " ++ interp cs pairs) :: hooksDryTrace pairs rest
  | _ :: _ => []

/-- The bump resolution of one run as a pure function of the loaded
configuration and environment (cli.js lines 74-105). -/
def dryDecide (env : RunEnv) (cfg : JFields) (av : ArgvOut) : BumpRes :=
  resolveBumpV env cfg av (nullishB (getKeyF cfg "ci") av.ci)
    (if truthyProp (getKeyF cfg "conventionalCommits") then suggestBumpFromCommits env.commits
     else none)
    av.noIncrement

/-- The next version a run decides on (cli.js line 107) given the loaded
configuration and the current version. -/
def dryNewVersion (env : RunEnv) (cfg : JFields) (av : ArgvOut) (cv : String) : String :=
  if av.noIncrement then cv
  else ⟨increaseVersionL cv.data (jsOrStrD (dryDecide env cfg av).bump "patch")
    (jsPreOfJ (dryDecide env cfg av).preId)⟩

/-- The single decision log line of a dry run (cli.js line 112). -/
def wouldReleaseLine (env : RunEnv) (cfg : JFields) (av : ArgvOut) (cv : String) : String :=
  "[dry-run] Would release " ++ dryNewVersion env cfg av cv ++ " (bump: " ++
    (if av.noIncrement then "none" else bumpWord (dryDecide env cfg av)) ++ ") from " ++
    env.branch ++ "."

/-- The complete effect trace of a dry-run invocation that passes all
preconditions: the banner, plugin and hook init lines, the read-only
precondition checks, the prompts, and the one decision line. -/
def dryTrace (env : RunEnv) (cfg : JFields) (av : ArgvOut) (cv : String) : List Eff :=
  [Eff.log "Running in dry-run mode. No changes will be made."] ++
  pluginTrace "init" (loadPluginsM env (getKeyF cfg "plugins")) ++
  hooksDryTrace (initPairs env true (nullishB (getKeyF cfg "ci") av.ci) av.verbose)
    (hookCmdList (getVal2 cfg "hooks" "beforeInit")) ++
  [Eff.gitRead "git remote get-url origin"] ++
  (if truthyProp (getKeyF cfg "requireCleanWorkingDir") then
    [Eff.gitRead "git status --porcelain"] else []) ++
  (if (!obsEqFalse (getKeyF cfg "gitFlow") && !av.noGitFlow) then
    [Eff.gitRead "git flow version"] else []) ++
  [Eff.gitRead "git branch --show-current"] ++
  (if obsEqTrue (getVal2 cfg "git" "requireUpstream") then
    [Eff.gitRead ("git rev-parse --abbrev-ref \"" ++ env.branch ++ "@{upstream}\"")] else []) ++
  [Eff.gitRead "git log --oneline --no-merges"] ++
  (if (dryDecide env cfg av).promptedBump then [Eff.prompt "selectBumpType"] else []) ++
  (if (dryDecide env cfg av).promptedPre then [Eff.prompt "selectPreId"] else []) ++
  [Eff.log (wouldReleaseLine env cfg av cv)]

/-- A trace free of filesystem, git, network and shell mutations. -/
def allNonMut (T : List Eff) : Prop := ∀ e ∈ T, isMutEff e = false

/-- Repository snapshot for concrete dry-run scenarios: a clean checkout of
`develop` with a plain manifest and no config file. -/
def envC1 : RunEnv :=
  { fs := ⟨[(pathJoin "/w" "package.json",
      .ok (.obj (JFields.ofList [("name", .str "p"), ("version", .str "1.0.0")])))]⟩
    envv := []
    cwd := "/w"
    branch := "develop"
    commits := ["feat: add things"]
    latestTag := some "v1.0.0"
    originOk := true
    treeClean := true
    gitFlowOk := true
    upstreamOk := true
    localTags := []
    remoteTagsRaw := ""
    bumpAnswer := ""
    preIdAnswer := ""
    confirmAnswer := ""
    dateOf := fun _ => "1404/1/1"
    ghRepoOk := false
    glRepoOk := false
    ghResult := .ok none
    glResult := .ok none
    npmLockExists := false
    plugins := []
    queue := [] }

/-- The configuration `loadConfig` produces for `envC1` with argv `minor`. -/
def cfgC1 : JFields :=
  match loadConfigWith envC1.fs envC1.envv envC1.cwd {parseArgv ["minor"] with dryRun := true} with
  | .ok (c, _) => c
  | .error _ => .nil

/-- The argv record `loadConfig` produces for `envC1` with argv `minor`. -/
def avC1 : ArgvOut :=
  match loadConfigWith envC1.fs envC1.envv envC1.cwd {parseArgv ["minor"] with dryRun := true} with
  | .ok (_, a) => a
  | .error _ => ⟨none, false, false, false, false, none, .null, false, false, false, false, false⟩

lemma suggestLoop_spec (msgs : List String) : ∀ hb hf hx,
    suggestLoop msgs hb hf hx =
      (hb || msgs.any isBreakingMsg,
       hf || msgs.any (fun m => isFeatMsg m && !isBreakingMsg m),
       hx || msgs.any (fun m => isFixMsg m && !isFeatMsg m && !isBreakingMsg m)) := by
  induction msgs with
  | nil => simp [suggestLoop]
  | cons m rest ih =>
    intro hb hf hx
    by_cases hB : breakingTest (firstLineOf m) <;>
      by_cases hF : featTest (firstLineOf m) <;>
        by_cases hX : fixTest (firstLineOf m) <;>
          simp [suggestLoop, List.any_cons, isBreakingMsg, isFeatMsg, isFixMsg, hB, hF, hX, ih,
            Bool.or_assoc]

lemma any_congr_mem {α : Type} (l : List α) (p q : α → Bool)
    (h : ∀ a ∈ l, p a = q a) : l.any p = l.any q := by
  induction l with
  | nil => rfl
  | cons a t ih =>
    simp only [List.any_cons]
    rw [h a (by simp), ih (fun b hb => h b (by simp [hb]))]

lemma natCharsGo_append (fuel : Nat) : ∀ n acc,
    natCharsGo fuel n acc = natCharsGo fuel n [] ++ acc := by
  induction fuel with
  | zero => intro n acc; simp [natCharsGo]
  | succ f ih =>
    intro n acc
    by_cases h : n < 10
    · simp [natCharsGo, h]
    · rw [natCharsGo, natCharsGo, if_neg h, if_neg h, ih _ (digitCh (n % 10) :: acc),
        ih _ [digitCh (n % 10)]]
      simp

lemma natCharsGo_spec (fuel : Nat) : ∀ n, n < 10 ^ (fuel + 1) →
    natCharsGo fuel n [] = natCharsSpec n := by
  induction fuel with
  | zero =>
    intro n h
    rw [natCharsGo, natCharsSpec, if_pos (by omega)]
  | succ f ih =>
    intro n h
    by_cases h10 : n < 10
    · rw [natCharsGo, if_pos h10, natCharsSpec, if_pos h10]
    · have hdiv : n / 10 < 10 ^ (f + 1) := by
        have hp : (10:Nat) ^ (f + 1 + 1) = 10 ^ (f + 1) * 10 := by ring
        exact Nat.div_lt_of_lt_mul (by omega)
      rw [natCharsGo, if_neg h10, natCharsSpec, if_neg h10,
        natCharsGo_append, ih (n / 10) hdiv]

lemma natChars_eq_spec (n : Nat) : natChars n = natCharsSpec n := by
  rw [natChars]
  by_cases h : n < 10
  · cases n with
    | zero => rw [natCharsGo, natCharsSpec, if_pos h]
    | succ m =>
      rw [natCharsGo_spec]
      calc m + 1 < 10 ^ 1 := by omega
        _ ≤ 10 ^ (m + 1 + 1) := Nat.pow_le_pow_right (by omega) (by omega)
  · rw [natCharsGo_spec]
    calc n < 10 ^ n := Nat.lt_pow_self (by omega) n
      _ ≤ 10 ^ (n + 1) := Nat.pow_le_pow_right (by omega) (by omega)

lemma toNat_digitCh (d : Nat) (h : d < 10) : (digitCh d).toNat = 48 + d := by
  rw [digitCh, Char.ofNat, dif_pos (Or.inl (by omega))]
  rfl

lemma isDigitC_digitCh (d : Nat) (h : d < 10) : isDigitC (digitCh d) = true := by
  simp [isDigitC, toNat_digitCh d h]
  omega

lemma mem_natCharsSpec (n : Nat) : ∀ c ∈ natCharsSpec n, ∃ d, d < 10 ∧ c = digitCh d := by
  induction n using Nat.strong_induction_on with
  | _ n ih =>
    intro c hc
    by_cases h : n < 10
    · rw [natCharsSpec, if_pos h] at hc
      simp at hc
      exact ⟨n, h, hc⟩
    · rw [natCharsSpec, if_neg h] at hc
      rcases List.mem_append.mp hc with h1 | h2
      · exact ih (n / 10) (Nat.div_lt_self (by omega) (by omega)) c h1
      · simp at h2
        exact ⟨n % 10, Nat.mod_lt _ (by omega), h2⟩

lemma mem_natChars_digit (n : Nat) (c : Char) (hc : c ∈ natChars n) : isDigitC c = true := by
  rw [natChars_eq_spec] at hc
  obtain ⟨d, hd, rfl⟩ := mem_natCharsSpec n c hc
  exact isDigitC_digitCh d hd

lemma natCharsSpec_ne_nil (n : Nat) : natCharsSpec n ≠ [] := by
  rw [natCharsSpec]
  by_cases h : n < 10 <;> simp [h]

lemma natChars_ne_nil (n : Nat) : natChars n ≠ [] := by
  rw [natChars_eq_spec]; exact natCharsSpec_ne_nil n

lemma decVal_append (l1 l2 : List Char) :
    decVal (l1 ++ l2) = (l2.foldl (fun a c => a * 10 + (c.toNat - 48)) (decVal l1)) := by
  rw [decVal, List.foldl_append]
  rfl

lemma decVal_natCharsSpec (n : Nat) : decVal (natCharsSpec n) = n := by
  induction n using Nat.strong_induction_on with
  | _ n ih =>
    by_cases h : n < 10
    · rw [natCharsSpec, if_pos h, decVal]
      simp [toNat_digitCh n h]
    · rw [natCharsSpec, if_neg h, decVal_append, ih (n / 10) (Nat.div_lt_self (by omega) (by omega))]
      simp [toNat_digitCh (n % 10) (Nat.mod_lt _ (by omega))]
      omega

lemma decVal_natChars (n : Nat) : decVal (natChars n) = n := by
  rw [natChars_eq_spec]; exact decVal_natCharsSpec n

/-- Character classes: a decimal digit is not whitespace, not a dot, not a dash. -/
lemma isDigitC_props (c : Char) (h : isDigitC c = true) :
    isWsC c = false ∧ c ≠ '.' ∧ c ≠ '-' ∧ isWordC c = true := by
  simp [isDigitC] at h
  have hne : ∀ d : Char, (48 ≤ d.toNat ∧ d.toNat ≤ 57 → False) → c ≠ d := by
    intro d hd he
    subst he
    exact hd h
  refine ⟨?_, hne '.' (by decide), hne '-' (by decide), ?_⟩
  · simp [isWsC, hne ' ' (by decide), hne '\t' (by decide), hne '\n' (by decide),
      hne '\r' (by decide)]
  · simp [isWordC, isDigitC]
    omega

/-! ## splitOnDot, trim, lowercase and jsNumber lemmas -/
lemma splitOnDot_no_dot (l : List Char) (h : ∀ c ∈ l, c ≠ '.') : splitOnDot l = [l] := by
  induction l with
  | nil => rfl
  | cons c rest ih =>
    rw [splitOnDot, if_neg (by simpa using h c (by simp)),
      ih (fun d hd => h d (by simp [hd]))]

lemma splitOnDot_ne_nil (l : List Char) : splitOnDot l ≠ [] := by
  cases l with
  | nil => simp [splitOnDot]
  | cons c rest =>
    rw [splitOnDot]
    by_cases h : c = '.'
    · simp [h]
    · rw [if_neg (by simpa using h)]
      rcases he : splitOnDot rest with _ | ⟨g, gs⟩ <;> simp

lemma splitOnDot_append (xs ys : List Char) (h : ∀ c ∈ xs, c ≠ '.') :
    splitOnDot (xs ++ '.' :: ys) = xs :: splitOnDot ys := by
  induction xs with
  | nil => simp [splitOnDot]
  | cons c rest ih =>
    rw [List.cons_append, splitOnDot, if_neg (by simpa using h c (by simp)),
      ih (fun d hd => h d (by simp [hd]))]

lemma map_self_of {α : Type} (f : α → α) (l : List α) (h : ∀ a ∈ l, f a = a) :
    l.map f = l := by
  induction l with
  | nil => rfl
  | cons a t ih => rw [List.map_cons, h a (by simp), ih (fun b hb => h b (by simp [hb]))]

lemma dropWhile_all_not {α : Type} (p : α → Bool) (l : List α) (h : ∀ a ∈ l, p a = false) :
    l.dropWhile p = l := by
  cases l with
  | nil => rfl
  | cons a t => rw [List.dropWhile_cons, h a (by simp), if_neg (by simp)]

lemma trimL_all_not_ws (l : List Char) (h : ∀ c ∈ l, isWsC c = false) : trimL l = l := by
  rw [trimL, dropWhile_all_not _ _ h,
    dropWhile_all_not _ _ (fun c hc => h c (List.mem_reverse.mp hc)), List.reverse_reverse]

lemma dropWhile_head_not {α : Type} (p : α → Bool) (l : List α) :
    ∀ c, (l.dropWhile p).head? = some c → p c = false := by
  induction l with
  | nil => intro c hc; simp at hc
  | cons a t ih =>
    intro c hc
    rw [List.dropWhile_cons] at hc
    by_cases hp : p a
    · exact ih c (by simpa [hp] using hc)
    · rw [if_neg (by simp [hp])] at hc
      simp at hc
      subst hc
      simpa using hp

lemma dropWhile_head_self {α : Type} (p : α → Bool) (l : List α)
    (h : ∀ c, l.head? = some c → p c = false) : l.dropWhile p = l := by
  cases l with
  | nil => rfl
  | cons a t => rw [List.dropWhile_cons, h a rfl, if_neg (by simp)]

lemma dropWhile_idem {α : Type} (p : α → Bool) (l : List α) :
    (l.dropWhile p).dropWhile p = l.dropWhile p :=
  dropWhile_head_self p _ (dropWhile_head_not p l)

lemma dropWhile_getLast {α : Type} (p : α → Bool) (l : List α) (h : l.dropWhile p ≠ []) :
    (l.dropWhile p).getLast? = l.getLast? := by
  induction l with
  | nil => rfl
  | cons a t ih =>
    rw [List.dropWhile_cons]
    by_cases hp : p a
    · rw [if_pos (by simp [hp])]
      have ht : t.dropWhile p ≠ [] := by
        intro he
        rw [List.dropWhile_cons, if_pos (by simp [hp]), he] at h
        exact h rfl
      have htne : t ≠ [] := by
        intro he
        subst he
        exact ht rfl
      rw [ih ht]
      cases t with
      | nil => exact absurd rfl htne
      | cons b u => rw [List.getLast?_cons_cons]
    · rw [if_neg (by simp [hp])]

lemma trimL_eq_self (l : List Char)
    (h1 : ∀ c, l.head? = some c → isWsC c = false)
    (h2 : ∀ c, l.getLast? = some c → isWsC c = false) : trimL l = l := by
  rw [trimL, dropWhile_head_self _ _ h1,
    dropWhile_head_self _ _ (by intro c hc; rw [List.head?_reverse] at hc; exact h2 c hc),
    List.reverse_reverse]

lemma trimL_head_not (l : List Char) :
    ∀ c, (trimL l).head? = some c → isWsC c = false := by
  intro c hc
  rw [trimL, List.head?_reverse] at hc
  have hne : (l.dropWhile isWsC).reverse.dropWhile isWsC ≠ [] := by
    intro he
    rw [he] at hc
    simp at hc
  rw [dropWhile_getLast _ _ hne, List.getLast?_reverse] at hc
  exact dropWhile_head_not isWsC l c hc

lemma trimL_last_not (l : List Char) :
    ∀ c, (trimL l).getLast? = some c → isWsC c = false := by
  intro c hc
  rw [trimL, List.getLast?_reverse] at hc
  exact dropWhile_head_not isWsC _ c hc

lemma trimL_idem (l : List Char) : trimL (trimL l) = trimL l :=
  trimL_eq_self _ (trimL_head_not l) (trimL_last_not l)

lemma toNat_charOfNat (n : Nat) (h : n < 55296) : (Char.ofNat n).toNat = n := by
  rw [Char.ofNat, dif_pos (show n.isValidChar from Or.inl h)]
  rfl

lemma toLower_not_upper (c : Char) (h : ¬(65 ≤ c.toNat ∧ c.toNat ≤ 90)) :
    Char.toLower c = c := by
  simp only [Char.toLower, ge_iff_le]
  rw [if_neg h]

lemma toLower_of_upper (c : Char) (h : 65 ≤ c.toNat ∧ c.toNat ≤ 90) :
    (Char.toLower c).toNat = c.toNat + 32 := by
  simp only [Char.toLower, ge_iff_le]
  rw [if_pos h]
  exact toNat_charOfNat _ (by omega)

lemma toLower_idem (c : Char) : Char.toLower (Char.toLower c) = Char.toLower c := by
  by_cases h : 65 ≤ c.toNat ∧ c.toNat ≤ 90
  · have h2 := toLower_of_upper c h
    exact toLower_not_upper _ (by rw [h2]; omega)
  · rw [toLower_not_upper c h, toLower_not_upper c h]

lemma isWsC_ge_65 (d : Char) (hd : 65 ≤ d.toNat) : isWsC d = false := by
  have hne : ∀ e : Char, (65 ≤ e.toNat → False) → d ≠ e := by
    intro e he hde
    subst hde
    exact he hd
  simp [isWsC, hne ' ' (by decide), hne '\t' (by decide), hne '\n' (by decide),
    hne '\r' (by decide)]

lemma isWsC_toLower (c : Char) : isWsC (Char.toLower c) = isWsC c := by
  by_cases h : 65 ≤ c.toNat ∧ c.toNat ≤ 90
  · have h2 := toLower_of_upper c h
    rw [isWsC_ge_65 _ (by omega), isWsC_ge_65 c (by omega)]
  · rw [toLower_not_upper c h]

lemma jsNumber_natChars (n : Nat) : jsNumber (natChars n) = some (n : Int) := by
  have hmem := mem_natChars_digit n
  have htrim : trimL (natChars n) = natChars n :=
    trimL_all_not_ws _ (fun c hc => (isDigitC_props c (hmem c hc)).1)
  rw [jsNumber]
  simp only [htrim]
  rw [if_neg (natChars_ne_nil n), if_pos (List.all_eq_true.mpr (fun c hc => hmem c hc)),
    decVal_natChars]

lemma natChars_no_dot (n : Nat) : ∀ c ∈ natChars n, c ≠ '.' :=
  fun c hc => (isDigitC_props c (mem_natChars_digit n c hc)).2.1

lemma natChars_no_dash (n : Nat) : ∀ c ∈ natChars n, c ≠ '-' :=
  fun c hc => (isDigitC_props c (mem_natChars_digit n c hc)).2.2.1

lemma splitOnDot_render3 (a b c : Nat) :
    splitOnDot (render3 a b c) = [natChars a, natChars b, natChars c] := by
  rw [render3, splitOnDot_append _ _ (natChars_no_dot a),
    splitOnDot_append _ _ (natChars_no_dot b), splitOnDot_no_dot _ (natChars_no_dot c)]

lemma splitOnDot_render4 (a b c d : Nat) :
    splitOnDot (render4 a b c d) = [natChars a, natChars b, natChars c, natChars d] := by
  rw [render4, splitOnDot_append _ _ (natChars_no_dot a),
    splitOnDot_append _ _ (natChars_no_dot b), splitOnDot_append _ _ (natChars_no_dot c),
    splitOnDot_no_dot _ (natChars_no_dot d)]

lemma mem_render3 (a b c : Nat) (x : Char) (hx : x ∈ render3 a b c) :
    isDigitC x = true ∨ x = '.' := by
  rw [render3] at hx
  simp only [List.mem_append, List.mem_cons] at hx
  rcases hx with h | h | h
  · exact Or.inl (mem_natChars_digit a x h)
  · exact Or.inr h
  · rcases h with h | h | h
    · exact Or.inl (mem_natChars_digit b x h)
    · exact Or.inr h
    · exact Or.inl (mem_natChars_digit c x h)

lemma mem_render4 (a b c d : Nat) (x : Char) (hx : x ∈ render4 a b c d) :
    isDigitC x = true ∨ x = '.' := by
  rw [render4] at hx
  simp only [List.mem_append, List.mem_cons] at hx
  rcases hx with h | h | h
  · exact Or.inl (mem_natChars_digit a x h)
  · exact Or.inr h
  · rcases h with h | h | h
    · exact Or.inl (mem_natChars_digit b x h)
    · exact Or.inr h
    · rcases h with h | h | h
      · exact Or.inl (mem_natChars_digit c x h)
      · exact Or.inr h
      · exact Or.inl (mem_natChars_digit d x h)

lemma render3_no_dash (a b c : Nat) : ∀ x ∈ render3 a b c, x ≠ '-' := by
  intro x hx
  rcases mem_render3 a b c x hx with h | h
  · exact (isDigitC_props x h).2.2.1
  · subst h; decide

lemma render4_no_dash (a b c d : Nat) : ∀ x ∈ render4 a b c d, x ≠ '-' := by
  intro x hx
  rcases mem_render4 a b c d x hx with h | h
  · exact (isDigitC_props x h).2.2.1
  · subst h; decide

lemma numChars_coe (n : Nat) : numChars (some (n : Int)) = natChars n := rfl

lemma numChars_add_one (n : Nat) : numChars (jsAdd1 (some (n : Int))) = natChars (n + 1) := by
  show intChars ((n : Int) + 1) = natChars (n + 1)
  have h : (n : Int) + 1 = ((n + 1 : Nat) : Int) := by push_cast; ring
  rw [h]
  rfl

lemma natChars_zero : natChars 0 = ['0'] := by decide

lemma natChars_one : natChars 1 = ['1'] := by decide

/-- Computation of `bumpBase` on a clean three-component version. -/
lemma bumpBase_render3 (a b c : Nat) (ty : String) :
    bumpBase (render3 a b c) ty =
      if ty = "major" then render3 (a + 1) 0 0
      else if ty = "minor" then render3 a (b + 1) 0
      else if ty = "patch" then render3 a b (c + 1)
      else if ty = "hotfix" || ty = "build" then render4 a b c 1
      else render3 a b (c + 1) := by
  rw [bumpBase]
  simp only [splitOnDot_render3, List.map_cons, List.map_nil, jsNumber_natChars,
    List.getD, List.get?, List.length_cons, List.length_nil]
  split_ifs with h1 h2 h3 h4 <;>
    simp_all [render3, render4, numChars_add_one, numChars_coe, natChars_zero, natChars_one]

/-- Computation of `bumpBase` on a clean four-component version. -/
lemma bumpBase_render4 (a b c d : Nat) (ty : String) :
    bumpBase (render4 a b c d) ty =
      if ty = "major" then render3 (a + 1) 0 0
      else if ty = "minor" then render3 a (b + 1) 0
      else if ty = "patch" then render3 a b (c + 1)
      else if ty = "hotfix" || ty = "build" then render4 a b c (d + 1)
      else render3 a b (c + 1) := by
  rw [bumpBase]
  simp only [splitOnDot_render4, List.map_cons, List.map_nil, jsNumber_natChars,
    List.getD, List.get?, List.length_cons, List.length_nil]
  split_ifs with h1 h2 h3 h4 <;>
    simp_all [render3, render4, numChars_add_one, numChars_coe, natChars_zero, natChars_one]

/-! ## Parsing and matching lemmas -/
lemma drop_append_add {α : Type} (p x : List α) (k : Nat) :
    (p ++ x).drop (p.length + k) = x.drop k := by
  induction p with
  | nil => simp
  | cons a t ih =>
    show (a :: (t ++ x)).drop (t.length + 1 + k) = x.drop k
    have h : t.length + 1 + k = (t.length + k) + 1 := by omega
    rw [h, List.drop_succ_cons, ih]

lemma splitFirstDash_no_dash (l : List Char) (h : ∀ c ∈ l, c ≠ '-') :
    splitFirstDash l = (l, none) := by
  induction l with
  | nil => rfl
  | cons c r ih =>
    rw [splitFirstDash, if_neg (by simpa using h c (by simp)),
      ih (fun d hd => h d (by simp [hd]))]

lemma splitFirstDash_append (p r : List Char) (h : ∀ c ∈ p, c ≠ '-') :
    splitFirstDash (p ++ '-' :: r) = (p, some r) := by
  induction p with
  | nil => simp [splitFirstDash]
  | cons c t ih =>
    rw [List.cons_append, splitFirstDash, if_neg (by simpa using h c (by simp)),
      ih (fun d hd => h d (by simp [hd]))]

lemma parseComp_natChars (n : Nat) : parseComp (natChars n) = some n := by
  rw [parseComp, if_pos, decVal_natChars]
  simp [natChars_ne_nil n]
  exact fun c hc => mem_natChars_digit n c hc

lemma parseBase_render3 (a b c : Nat) : parseBase (render3 a b c) = some (a, b, c, 0) := by
  rw [parseBase, splitOnDot_render3]
  simp [parseComp_natChars]

lemma parseBase_render4 (a b c d : Nat) :
    parseBase (render4 a b c d) = some (a, b, c, d) := by
  rw [parseBase, splitOnDot_render4]
  simp [parseComp_natChars]

lemma parseVersion_render3 (a b c : Nat) :
    parseVersion (render3 a b c) = some ⟨a, b, c, 0, none⟩ := by
  rw [parseVersion, splitFirstDash_no_dash _ (render3_no_dash a b c)]
  simp [parseBase_render3]

lemma parseVersion_render4 (a b c d : Nat) :
    parseVersion (render4 a b c d) = some ⟨a, b, c, d, none⟩ := by
  rw [parseVersion, splitFirstDash_no_dash _ (render4_no_dash a b c d)]
  simp [parseBase_render4]

lemma lastDotSplit_no_dot (l : List Char) (h : ∀ c ∈ l, c ≠ '.') :
    lastDotSplit l = none := by
  induction l with
  | nil => rfl
  | cons c r ih =>
    rw [lastDotSplit, ih (fun d hd => h d (by simp [hd])),
      if_neg (by simpa using h c (by simp))]

lemma lastDotSplit_append (idn ds : List Char) (h : ∀ c ∈ ds, c ≠ '.') :
    lastDotSplit (idn ++ '.' :: ds) = some (idn, ds) := by
  induction idn with
  | nil => rw [List.nil_append, lastDotSplit, lastDotSplit_no_dot ds h, if_pos rfl]
  | cons c t ih => rw [List.cons_append, lastDotSplit, ih]

lemma parsePreSeg_append (idn ds : List Char) (hid : idn ≠ [])
    (hds : ds ≠ []) (hdig : ∀ c ∈ ds, isDigitC c = true) :
    parsePreSeg (idn ++ '.' :: ds) = some (idn, decVal ds) := by
  rw [parsePreSeg, lastDotSplit_append idn ds (fun c hc => (isDigitC_props c (hdig c hc)).2.1)]
  simp [hid, hds]
  exact fun c hc => hdig c hc

lemma parseVersion_r3_pre (a b c : Nat) (idn ds : List Char)
    (hgood : goodId idn) (hds : ds ≠ []) (hdig : ∀ x ∈ ds, isDigitC x = true) :
    parseVersion (render3 a b c ++ '-' :: (idn ++ '.' :: ds)) =
      some ⟨a, b, c, 0, some (idn, decVal ds)⟩ := by
  rw [parseVersion, splitFirstDash_append _ _ (render3_no_dash a b c)]
  simp [parseBase_render3, parsePreSeg_append idn ds hgood.1 hds hdig]

/-! ## Greedy pre-release matching lemmas -/
lemma preTail_cons_ne (c : Char) (r idn : List Char) (h : c ≠ '-') :
    preTail (c :: r) idn = none := by
  rw [preTail, if_neg h]

lemma preTail_exact (idn ds : List Char) (hlow : ∀ c ∈ idn, Char.toLower c = c)
    (hds : ds ≠ []) (hdig : ∀ x ∈ ds, isDigitC x = true) :
    preTail ('-' :: (idn ++ '.' :: ds)) idn = some (decVal ds) := by
  rw [preTail, if_pos rfl, List.take_left, map_self_of _ _ hlow, if_pos rfl, List.drop_left]
  simp [hds]
  exact fun x hx => hdig x hx

lemma preFindAux_no_dash (v idn : List Char) (hv : ∀ c ∈ v, c ≠ '-') :
    ∀ k, preFindAux v idn k = none := by
  intro k
  induction k with
  | zero => rfl
  | succ k ih =>
    rw [preFindAux]
    rcases hd : v.drop (k + 1) with _ | ⟨c, r⟩
    · rw [show preTail [] idn = none from rfl]
      exact ih
    · have hc : c ∈ v := List.drop_subset (k + 1) v (hd ▸ List.mem_cons_self c r)
      rw [preTail_cons_ne c r idn (hv c hc)]
      exact ih

lemma preFind_no_dash (v idn : List Char) (hv : ∀ c ∈ v, c ≠ '-') :
    preFind v idn = none :=
  preFindAux_no_dash v idn hv v.length

lemma preFindAux_above (v idn : List Char) (m : Nat)
    (hfail : ∀ j, m < j → preTail (v.drop j) idn = none) :
    ∀ k, m ≤ k → preFindAux v idn k = preFindAux v idn m := by
  intro k
  induction k with
  | zero =>
    intro h
    have : m = 0 := by omega
    rw [this]
  | succ k ih =>
    intro h
    rcases Nat.eq_or_lt_of_le h with he | hlt
    · rw [he]
    · rw [preFindAux, hfail (k + 1) (by omega)]
      exact ih (by omega)

/-- The greedy regex search on a string of the exact shape
`p ++ "-" ++ idn ++ "." ++ ds` finds the intended decomposition. -/
lemma preFind_exact (p idn ds : List Char)
    (hp : p ≠ []) (hpd : ∀ c ∈ p, c ≠ '-')
    (hgood : goodId idn)
    (hds : ds ≠ []) (hdig : ∀ x ∈ ds, isDigitC x = true) :
    preFind (p ++ '-' :: (idn ++ '.' :: ds)) idn = some (p, decVal ds) := by
  have hrest : ∀ x ∈ idn ++ '.' :: ds, x ≠ '-' := by
    intro x hx
    rcases List.mem_append.mp hx with h | h
    · exact (hgood.2 x h).2.1
    · rcases List.mem_cons.mp h with h | h
      · subst h; decide
      · exact (isDigitC_props x (hdig x h)).2.2.1
  have hfail : ∀ j, p.length < j →
      preTail ((p ++ '-' :: (idn ++ '.' :: ds)).drop j) idn = none := by
    intro j hj
    have hj2 : j = p.length + (1 + (j - p.length - 1)) := by omega
    rw [hj2, drop_append_add]
    rw [show (1 + (j - p.length - 1)) = (j - p.length - 1) + 1 from by omega,
      List.drop_succ_cons]
    rcases hd : (idn ++ '.' :: ds).drop (j - p.length - 1) with _ | ⟨c, r⟩
    · rfl
    · exact preTail_cons_ne c r idn
        (hrest c (List.drop_subset _ _ (hd ▸ List.mem_cons_self c r)))
  have hlen : p.length ≤ (p ++ '-' :: (idn ++ '.' :: ds)).length := by
    simp [List.length_append]
  rw [preFind, preFindAux_above _ _ p.length hfail _ hlen]
  rcases hplen : p.length with _ | m
  · exact absurd (List.length_eq_zero.mp hplen) hp
  · rw [preFindAux]
    have hdrop : (p ++ '-' :: (idn ++ '.' :: ds)).drop (m + 1) = '-' :: (idn ++ '.' :: ds) := by
      rw [← hplen]
      have := drop_append_add p ('-' :: (idn ++ '.' :: ds)) 0
      simpa using this
    have htake : (p ++ '-' :: (idn ++ '.' :: ds)).take (m + 1) = p := by
      rw [← hplen]
      exact List.take_left p _
    rw [hdrop, preTail_exact idn ds (fun x hx => (hgood.2 x hx).2.2.2) hds hdig]
    simp [htake]

lemma trimL_map_comm (f : Char → Char) (hf : ∀ c, isWsC (f c) = isWsC c) (l : List Char) :
    trimL (l.map f) = (trimL l).map f := by
  have hd : ∀ m : List Char, (m.map f).dropWhile isWsC = (m.dropWhile isWsC).map f := by
    intro m
    induction m with
    | nil => rfl
    | cons a t ih =>
      rw [List.map_cons, List.dropWhile_cons, List.dropWhile_cons, hf a]
      by_cases hp : isWsC a
      · simp only [hp, if_pos]
        exact ih
      · simp [hp]
  rw [trimL, trimL, hd, ← List.map_reverse, hd, List.map_reverse]

/-! ## Computation lemmas for increaseVersionL -/
lemma increaseVersion_null (v : List Char) (ty : String) :
    increaseVersionL v ty .null = bumpBase v ty := rfl

lemma increaseVersion_nonString (v : List Char) (ty : String) :
    increaseVersionL v ty .nonString = bumpBase v ty := rfl

lemma increaseVersion_blank (v : List Char) (ty : String) (s : String)
    (h : trimL s.data = []) : increaseVersionL v ty (.str s) = bumpBase v ty := by
  simp [increaseVersionL, h]

lemma mem_map_toLower_fixed (t : List Char) :
    ∀ c ∈ t.map Char.toLower, Char.toLower c = c := by
  intro c hc
  obtain ⟨a, _, rfl⟩ := List.mem_map.mp hc
  exact toLower_idem a

lemma increaseVersion_normalized (v : List Char) (ty : String) (s : String) :
    increaseVersionL v ty (.str s) =
      increaseVersionL v ty (.str ⟨(trimL s.data).map Char.toLower⟩) := by
  by_cases h : trimL s.data = []
  · rw [increaseVersion_blank _ _ _ h, increaseVersion_blank]
    rw [h]
    rfl
  · have htrim2 : trimL ((trimL s.data).map Char.toLower) = (trimL s.data).map Char.toLower := by
      rw [trimL_map_comm _ isWsC_toLower, trimL_idem]
    have hne2 : (trimL s.data).map Char.toLower ≠ [] := by simpa using h
    have hlow2 : ((trimL s.data).map Char.toLower).map Char.toLower
        = (trimL s.data).map Char.toLower :=
      map_self_of _ _ (mem_map_toLower_fixed _)
    simp only [increaseVersionL, htrim2, hlow2, if_neg h, if_neg hne2]

/-- Result of the guard-free pre-release path of increaseVersionL for a
well-formed identifier given as the preId string. -/
lemma increaseVersion_goodId (v : List Char) (ty : String) (idn : List Char)
    (hgood : goodId idn) :
    increaseVersionL v ty (.str ⟨idn⟩) =
      (match preFind v idn with
       | some (p, n) => p ++ '-' :: (idn ++ '.' :: natChars (n + 1))
       | none => bumpBase v ty ++ '-' :: (idn ++ ['.', '0'])) := by
  have hdata : (String.mk idn).data = idn := rfl
  have htrim : trimL idn = idn := trimL_all_not_ws _ (fun c hc => (hgood.2 c hc).1)
  have hlow : idn.map Char.toLower = idn := map_self_of _ _ (fun c hc => (hgood.2 c hc).2.2.2)
  simp only [increaseVersionL, hdata, htrim, hlow, if_neg hgood.1]

/-! ## Order helper lemmas -/
lemma svLtB_of_major {x y : SemVer} (h : x.major < y.major) : svLtB x y = true := by
  rw [svLtB, if_pos (by omega)]
  simpa using h

lemma svLtB_of_minor {x y : SemVer} (h1 : x.major = y.major) (h : x.minor < y.minor) :
    svLtB x y = true := by
  rw [svLtB, if_neg (by omega), if_pos (by omega)]
  simpa using h

lemma svLtB_of_patch {x y : SemVer} (h1 : x.major = y.major) (h2 : x.minor = y.minor)
    (h : x.patch < y.patch) : svLtB x y = true := by
  rw [svLtB, if_neg (by omega), if_neg (by omega), if_pos (by omega)]
  simpa using h

lemma svLtB_of_build {x y : SemVer} (h1 : x.major = y.major) (h2 : x.minor = y.minor)
    (h3 : x.patch = y.patch) (h : x.build < y.build) : svLtB x y = true := by
  rw [svLtB, if_neg (by omega), if_neg (by omega), if_neg (by omega), if_pos (by omega)]
  simpa using h

lemma svLtB_of_pre {x y : SemVer} (h1 : x.major = y.major) (h2 : x.minor = y.minor)
    (h3 : x.patch = y.patch) (h4 : x.build = y.build) (h : preLtB x.pre y.pre = true) :
    svLtB x y = true := by
  rw [svLtB, if_neg (by omega), if_neg (by omega), if_neg (by omega), if_neg (by omega)]
  exact h

lemma render3_ne_nil (a b c : Nat) : render3 a b c ≠ [] := by
  rw [render3]
  rcases he : natChars a with _ | ⟨x, r⟩
  · exact absurd he (natChars_ne_nil a)
  · simp

lemma render4_ne_nil (a b c d : Nat) : render4 a b c d ≠ [] := by
  rw [render4]
  rcases he : natChars a with _ | ⟨x, r⟩
  · exact absurd he (natChars_ne_nil a)
  · simp

lemma parseVersion_r4_pre (a b c d : Nat) (idn ds : List Char)
    (hgood : goodId idn) (hds : ds ≠ []) (hdig : ∀ x ∈ ds, isDigitC x = true) :
    parseVersion (render4 a b c d ++ '-' :: (idn ++ '.' :: ds)) =
      some ⟨a, b, c, d, some (idn, decVal ds)⟩ := by
  rw [parseVersion, splitFirstDash_append _ _ (render4_no_dash a b c d)]
  simp [parseBase_render4, parsePreSeg_append idn ds hgood.1 hds hdig]

/-! ## C2: the worked examples of increaseVersion -/
/-- C2: `increaseVersion` satisfies the specification's example table:
major, minor, patch and hotfix bumps of `1.2.3`, first pre-release attachment
`1.2.3 → 1.2.4-beta.0`, and pre-release counter bump
`1.2.4-beta.0 → 1.2.4-beta.1`. -/
theorem increaseVersion_examples :
    increaseVersion "1.2.3" "major" = "2.0.0" ∧
    increaseVersion "1.2.3" "minor" = "1.3.0" ∧
    increaseVersion "1.2.3" "patch" = "1.2.4" ∧
    increaseVersion "1.2.3" "hotfix" = "1.2.3.1" ∧
    increaseVersion "1.2.3" "patch" (.str "beta") = "1.2.4-beta.0" ∧
    increaseVersion "1.2.4-beta.0" "patch" (.str "beta") = "1.2.4-beta.1" := by
  refine ⟨?_, ?_, ?_, ?_, ?_, ?_⟩ <;> decide

/-! ## C4: suggestBumpFromCommits is an unordered precedence scan -/
/-- C4: `suggestBumpFromCommits` returns major when any commit subject carries a
breaking-change marker, else minor when any is a `feat`, else patch when any is
a `fix`, else none — a higher class anywhere in the list outranks a lower class
anywhere — and the four example calls of the specification hold. -/
theorem suggestBump_spec :
    (∀ msgs, suggestBumpFromCommits msgs =
      if msgs.any isBreakingMsg then some .major
      else if msgs.any isFeatMsg then some .minor
      else if msgs.any isFixMsg then some .patch
      else none) ∧
    suggestBumpFromCommits ["fix: x"] = some .patch ∧
    suggestBumpFromCommits ["feat: y", "fix: x"] = some .minor ∧
    suggestBumpFromCommits ["feat!: z"] = some .major ∧
    suggestBumpFromCommits ["chore: w"] = none := by
  refine ⟨?_, by decide, by decide, by decide, by decide⟩
  intro msgs
  by_cases hB : msgs.any isBreakingMsg = true
  · simp [suggestBumpFromCommits, suggestLoop_spec, hB]
  · have hB0 : msgs.any isBreakingMsg = false := by simpa using hB
    have hBm : ∀ a ∈ msgs, isBreakingMsg a = false := by
      intro a ha
      have h := List.any_eq_false.mp hB0 a ha
      simpa using h
    have e1 : msgs.any (fun m => isFeatMsg m && !isBreakingMsg m) = msgs.any isFeatMsg :=
      any_congr_mem _ _ _ (fun a ha => by simp [hBm a ha])
    have e2 : msgs.any (fun m => isFixMsg m && !isFeatMsg m && !isBreakingMsg m)
        = msgs.any (fun m => isFixMsg m && !isFeatMsg m) :=
      any_congr_mem _ _ _ (fun a ha => by simp [hBm a ha])
    by_cases hF : msgs.any isFeatMsg = true
    · simp [suggestBumpFromCommits, suggestLoop_spec, hB0, e1, e2, hF]
    · have hF0 : msgs.any isFeatMsg = false := by simpa using hF
      have hFm : ∀ a ∈ msgs, isFeatMsg a = false := by
        intro a ha
        have h := List.any_eq_false.mp hF0 a ha
        simpa using h
      have e3 : msgs.any (fun m => isFixMsg m && !isFeatMsg m) = msgs.any isFixMsg :=
        any_congr_mem _ _ _ (fun a ha => by simp [hFm a ha])
      simp [suggestBumpFromCommits, suggestLoop_spec, hB0, e1, e2, e3, hF0]

/-! ## C3: strict increase of the bump, corrected -/
/-- C3 counterexample: the claim quantifies over every valid current version,
with or without a pre-release segment, and every bump kind. On the pre-release
current version `1.2.4-beta.0` a plain `patch` bump (no preId) yields the
string `1.2.NaN` — the patch component is `Number('4-beta') = NaN` — which
does not even parse as a version, hence is not strictly greater. -/
theorem increaseVersion_not_strictly_increasing :
    strictlyIncreasesB "1.2.4-beta.0".data "patch" .null = false ∧
    increaseVersion "1.2.4-beta.0" "patch" = "1.2.NaN" :=
  ⟨by decide, by decide⟩

lemma inc_render3_kinds (a b c : Nat) :
    increaseVersionL (render3 a b c) "major" .null = render3 (a + 1) 0 0 ∧
    increaseVersionL (render3 a b c) "minor" .null = render3 a (b + 1) 0 ∧
    increaseVersionL (render3 a b c) "patch" .null = render3 a b (c + 1) ∧
    increaseVersionL (render3 a b c) "hotfix" .null = render4 a b c 1 := by
  refine ⟨?_, ?_, ?_, ?_⟩ <;> rw [increaseVersion_null, bumpBase_render3] <;> simp

lemma inc_render4_kinds (a b c d : Nat) :
    increaseVersionL (render4 a b c d) "major" .null = render3 (a + 1) 0 0 ∧
    increaseVersionL (render4 a b c d) "minor" .null = render3 a (b + 1) 0 ∧
    increaseVersionL (render4 a b c d) "patch" .null = render3 a b (c + 1) ∧
    increaseVersionL (render4 a b c d) "hotfix" .null = render4 a b c (d + 1) := by
  refine ⟨?_, ?_, ?_, ?_⟩ <;> rw [increaseVersion_null, bumpBase_render4] <;> simp

lemma strict3_null (a b c : Nat) (ty : String) (hty : specBumpKind ty) :
    strictlyIncreasesB (render3 a b c) ty .null = true := by
  obtain ⟨h1, h2, h3, h4⟩ := inc_render3_kinds a b c
  rcases hty with rfl | rfl | rfl | rfl
  · rw [strictlyIncreasesB, h1, parseVersion_render3, parseVersion_render3]
    exact svLtB_of_major (by simp)
  · rw [strictlyIncreasesB, h2, parseVersion_render3, parseVersion_render3]
    exact svLtB_of_minor rfl (by simp)
  · rw [strictlyIncreasesB, h3, parseVersion_render3, parseVersion_render3]
    exact svLtB_of_patch rfl rfl (by simp)
  · rw [strictlyIncreasesB, h4, parseVersion_render3, parseVersion_render4]
    exact svLtB_of_build rfl rfl rfl (by simp)

lemma strict4_null (a b c d : Nat) (ty : String) (hty : specBumpKind ty) :
    strictlyIncreasesB (render4 a b c d) ty .null = true := by
  obtain ⟨h1, h2, h3, h4⟩ := inc_render4_kinds a b c d
  rcases hty with rfl | rfl | rfl | rfl
  · rw [strictlyIncreasesB, h1, parseVersion_render4, parseVersion_render3]
    exact svLtB_of_major (by simp)
  · rw [strictlyIncreasesB, h2, parseVersion_render4, parseVersion_render3]
    exact svLtB_of_minor rfl (by simp)
  · rw [strictlyIncreasesB, h3, parseVersion_render4, parseVersion_render3]
    exact svLtB_of_patch rfl rfl (by simp)
  · rw [strictlyIncreasesB, h4, parseVersion_render4, parseVersion_render4]
    exact svLtB_of_build rfl rfl rfl (by simp)

lemma digits_natChars (n : Nat) : ∀ x ∈ natChars n, isDigitC x = true :=
  fun x hx => mem_natChars_digit n x hx

lemma strict3_preId (a b c : Nat) (ty : String) (idn : List Char)
    (hty : specBumpKind ty) (hgood : goodId idn) :
    strictlyIncreasesB (render3 a b c) ty (.str ⟨idn⟩) = true := by
  have hfind : preFind (render3 a b c) idn = none :=
    preFind_no_dash _ _ (render3_no_dash a b c)
  have hinc : increaseVersionL (render3 a b c) ty (.str ⟨idn⟩)
      = bumpBase (render3 a b c) ty ++ '-' :: (idn ++ ['.', '0']) := by
    rw [increaseVersion_goodId _ _ _ hgood, hfind]
  have hz : (['.', '0'] : List Char) = '.' :: natChars 0 := by rw [natChars_zero]
  have hds : natChars 0 ≠ [] := natChars_ne_nil 0
  have hdig := digits_natChars 0
  rcases hty with rfl | rfl | rfl | rfl
  · rw [strictlyIncreasesB, hinc, bumpBase_render3]
    rw [if_pos rfl]
    rw [hz, parseVersion_render3, parseVersion_r3_pre _ _ _ _ _ hgood hds hdig]
    exact svLtB_of_major (by simp)
  · rw [strictlyIncreasesB, hinc, bumpBase_render3]
    rw [if_neg (by decide), if_pos rfl]
    rw [hz, parseVersion_render3, parseVersion_r3_pre _ _ _ _ _ hgood hds hdig]
    exact svLtB_of_minor rfl (by simp)
  · rw [strictlyIncreasesB, hinc, bumpBase_render3]
    rw [if_neg (by decide), if_neg (by decide), if_pos rfl]
    rw [hz, parseVersion_render3, parseVersion_r3_pre _ _ _ _ _ hgood hds hdig]
    exact svLtB_of_patch rfl rfl (by simp)
  · rw [strictlyIncreasesB, hinc, bumpBase_render3]
    rw [if_neg (by decide), if_neg (by decide), if_neg (by decide), if_pos (by decide)]
    rw [hz, parseVersion_render3, parseVersion_r4_pre _ _ _ _ _ _ hgood hds hdig]
    exact svLtB_of_build rfl rfl rfl (by simp)

lemma strict4_preId (a b c d : Nat) (ty : String) (idn : List Char)
    (hty : specBumpKind ty) (hgood : goodId idn) :
    strictlyIncreasesB (render4 a b c d) ty (.str ⟨idn⟩) = true := by
  have hfind : preFind (render4 a b c d) idn = none :=
    preFind_no_dash _ _ (render4_no_dash a b c d)
  have hinc : increaseVersionL (render4 a b c d) ty (.str ⟨idn⟩)
      = bumpBase (render4 a b c d) ty ++ '-' :: (idn ++ ['.', '0']) := by
    rw [increaseVersion_goodId _ _ _ hgood, hfind]
  have hz : (['.', '0'] : List Char) = '.' :: natChars 0 := by rw [natChars_zero]
  have hds : natChars 0 ≠ [] := natChars_ne_nil 0
  have hdig := digits_natChars 0
  rcases hty with rfl | rfl | rfl | rfl
  · rw [strictlyIncreasesB, hinc, bumpBase_render4]
    rw [if_pos rfl]
    rw [hz, parseVersion_render4, parseVersion_r3_pre _ _ _ _ _ hgood hds hdig]
    exact svLtB_of_major (by simp)
  · rw [strictlyIncreasesB, hinc, bumpBase_render4]
    rw [if_neg (by decide), if_pos rfl]
    rw [hz, parseVersion_render4, parseVersion_r3_pre _ _ _ _ _ hgood hds hdig]
    exact svLtB_of_minor rfl (by simp)
  · rw [strictlyIncreasesB, hinc, bumpBase_render4]
    rw [if_neg (by decide), if_neg (by decide), if_pos rfl]
    rw [hz, parseVersion_render4, parseVersion_r3_pre _ _ _ _ _ hgood hds hdig]
    exact svLtB_of_patch rfl rfl (by simp)
  · rw [strictlyIncreasesB, hinc, bumpBase_render4]
    rw [if_neg (by decide), if_neg (by decide), if_neg (by decide), if_pos (by decide)]
    rw [hz, parseVersion_render4, parseVersion_r4_pre _ _ _ _ _ _ hgood hds hdig]
    exact svLtB_of_build rfl rfl rfl (by simp)

lemma strict_pre_matched (a b c n : Nat) (ty : String) (idn : List Char)
    (hgood : goodId idn) :
    strictlyIncreasesB (render3 a b c ++ '-' :: (idn ++ '.' :: natChars n)) ty
      (.str ⟨idn⟩) = true := by
  have hfind : preFind (render3 a b c ++ '-' :: (idn ++ '.' :: natChars n)) idn
      = some (render3 a b c, n) := by
    rw [preFind_exact _ _ _ (render3_ne_nil a b c) (render3_no_dash a b c) hgood
      (natChars_ne_nil n) (digits_natChars n), decVal_natChars]
  have hinc : increaseVersionL (render3 a b c ++ '-' :: (idn ++ '.' :: natChars n)) ty
      (.str ⟨idn⟩) = render3 a b c ++ '-' :: (idn ++ '.' :: natChars (n + 1)) := by
    rw [increaseVersion_goodId _ _ _ hgood, hfind]
  rw [strictlyIncreasesB, hinc,
    parseVersion_r3_pre _ _ _ _ _ hgood (natChars_ne_nil n) (digits_natChars n),
    parseVersion_r3_pre _ _ _ _ _ hgood (natChars_ne_nil (n + 1)) (digits_natChars (n + 1)),
    decVal_natChars, decVal_natChars]
  exact svLtB_of_pre rfl rfl rfl rfl (by simp [preLtB])

/-- C3 amended: on current versions without a pre-release segment (three or four
numeric components) every specification bump kind strictly increases the version
under the component-wise ordering, with or without a pre-release id supplied;
a pre-release current version is strictly increased when its own (normalized)
identifier is supplied as the preId, by bumping the counter; and applying
`patch` twice increments the patch component exactly twice, never skipping. -/
theorem increaseVersion_strictly_increases :
    (∀ a b c ty, specBumpKind ty → strictlyIncreasesB (render3 a b c) ty .null = true) ∧
    (∀ a b c d ty, specBumpKind ty → strictlyIncreasesB (render4 a b c d) ty .null = true) ∧
    (∀ a b c ty idn, specBumpKind ty → goodId idn →
      strictlyIncreasesB (render3 a b c) ty (.str ⟨idn⟩) = true) ∧
    (∀ a b c d ty idn, specBumpKind ty → goodId idn →
      strictlyIncreasesB (render4 a b c d) ty (.str ⟨idn⟩) = true) ∧
    (∀ a b c n ty idn, goodId idn →
      strictlyIncreasesB (render3 a b c ++ '-' :: (idn ++ '.' :: natChars n)) ty
        (.str ⟨idn⟩) = true) ∧
    (∀ a b c, increaseVersionL (increaseVersionL (render3 a b c) "patch" .null)
      "patch" .null = render3 a b (c + 2)) := by
  refine ⟨strict3_null, strict4_null,
    fun a b c ty idn h1 h2 => strict3_preId a b c ty idn h1 h2,
    fun a b c d ty idn h1 h2 => strict4_preId a b c d ty idn h1 h2,
    fun a b c n ty idn h => strict_pre_matched a b c n ty idn h, ?_⟩
  intro a b c
  rw [(inc_render3_kinds a b c).2.2.1, (inc_render3_kinds a b (c + 1)).2.2.1]

/-- C3 witness: the amended strict-increase theorem applied at concrete inputs
(`1.2.3` and `1.2.3.7` with each bump kind, `2.0.1-rc.4` with preId `rc`). -/
theorem increaseVersion_strictly_increases_witness :
    strictlyIncreasesB (render3 1 2 3) "patch" .null = true ∧
    strictlyIncreasesB (render4 1 2 3 7) "hotfix" .null = true ∧
    strictlyIncreasesB (render3 1 2 3) "minor" (.str ⟨['r', 'c']⟩) = true ∧
    strictlyIncreasesB (render4 1 2 3 7) "major" (.str ⟨['r', 'c']⟩) = true ∧
    strictlyIncreasesB (render3 2 0 1 ++ '-' :: (['r', 'c'] ++ '.' :: natChars 4)) "patch"
      (.str ⟨['r', 'c']⟩) = true ∧
    increaseVersionL (increaseVersionL (render3 1 2 3) "patch" .null) "patch" .null
      = render3 1 2 5 :=
  ⟨increaseVersion_strictly_increases.1 1 2 3 "patch" (by simp [specBumpKind]),
   increaseVersion_strictly_increases.2.1 1 2 3 7 "hotfix" (by simp [specBumpKind]),
   increaseVersion_strictly_increases.2.2.1 1 2 3 "minor" ['r', 'c']
     (by simp [specBumpKind]) (by refine ⟨by decide, ?_⟩; decide),
   increaseVersion_strictly_increases.2.2.2.1 1 2 3 7 "major" ['r', 'c']
     (by simp [specBumpKind]) (by refine ⟨by decide, ?_⟩; decide),
   increaseVersion_strictly_increases.2.2.2.2.1 2 0 1 4 "patch" ['r', 'c']
     (by refine ⟨by decide, ?_⟩; decide),
   increaseVersion_strictly_increases.2.2.2.2.2 1 2 3⟩

/-! ## C10: the preId guard and normalization -/
/-- C10: a `preId` that is null, not a string, empty or whitespace-only makes
`increaseVersion` return exactly the bumped base version with nothing appended;
a non-empty `preId` behaves exactly as its trimmed, lowercased form. -/
theorem increaseVersion_preId_guard :
    (∀ v ty, increaseVersionL v ty .null = bumpBase v ty) ∧
    (∀ v ty, increaseVersionL v ty .nonString = bumpBase v ty) ∧
    (∀ v ty s, trimL s.data = [] → increaseVersionL v ty (.str s) = bumpBase v ty) ∧
    (∀ v ty s, increaseVersionL v ty (.str s) =
      increaseVersionL v ty (.str ⟨(trimL s.data).map Char.toLower⟩)) :=
  ⟨increaseVersion_null, increaseVersion_nonString, increaseVersion_blank,
   increaseVersion_normalized⟩

/-- C10 witness: the guard theorem applied at concrete inputs — a whitespace-only
preId returns the plain patch bump, and preId `"  BeTa "` behaves as `"beta"`. -/
theorem increaseVersion_preId_guard_witness :
    increaseVersionL "1.2.3".data "patch" (.str "   ") = bumpBase "1.2.3".data "patch" ∧
    increaseVersion "1.2.3" "patch" (.str "  BeTa ") = increaseVersion "1.2.3" "patch" (.str "beta") := by
  constructor
  · exact increaseVersion_preId_guard.2.2.1 "1.2.3".data "patch" "   " (by decide)
  · unfold increaseVersion
    rw [increaseVersion_preId_guard.2.2.2 "1.2.3".data "patch" "  BeTa "]
    decide

/-! ## C5: configuration loading never fails -/
/-- C5 counterexample: the claim says a config file explicitly named via
`--config` that does not exist fails the run with a ConfigError; in the code
`findConfigFile` returns null for it and `loadFromFile` returns the empty
object, so loading succeeds with defaults. -/
theorem loadFromFile_missing_explicit_no_error :
    obsOkEmptyObj (loadFromFile ⟨[]⟩ "/w" (some "my-config.json")) = true := by
  decide

/-- C5 amended: configuration loading never raises a ConfigError — a missing
explicitly named config file degrades to the empty config exactly like a
discovered file whose content cannot be parsed, silently (no warning). -/
theorem loadFromFile_degrades :
    (∀ fs cwd ep, existsSync fs (resolveConfigPath cwd ep) = false →
      loadFromFile fs cwd (some ep) = .ok (.obj .nil)) ∧
    (∀ fs cwd e p, foundPath (findConfigFile fs cwd e) = some p →
      isBadFile (fsLookup fs p) = true → loadFromFile fs cwd e = .ok (.obj .nil)) ∧
    (∀ fs cwd e, ∃ v, loadFromFile fs cwd e = .ok v) := by
  refine ⟨?_, ?_, ?_⟩
  · intro fs cwd ep h
    simp [loadFromFile, findConfigFile, h]
  · intro fs cwd e p hf hb
    have hpath : findConfigFile fs cwd e = .path p := by
      rcases hc : findConfigFile fs cwd e with q | pkg | _ <;> rw [hc] at hf <;>
        simp [foundPath] at hf
      rw [hf]
    have hbad : fsLookup fs p = some .bad := by
      rcases hl : fsLookup fs p with _ | jf
      · rw [hl] at hb
        simp [isBadFile] at hb
      · cases jf with
        | ok v =>
          rw [hl] at hb
          simp [isBadFile] at hb
        | bad => rfl
    simp only [loadFromFile, hpath, hbad, jsonParse]
  · intro fs cwd e
    rcases hc : findConfigFile fs cwd e with q | pkg | _
    · rcases hl : fsLookup fs q with _ | jf
      · exact ⟨.obj .nil, by simp [loadFromFile, hc, hl]⟩
      · cases jf with
        | ok v => exact ⟨v, by simp [loadFromFile, hc, hl, jsonParse]⟩
        | bad => exact ⟨.obj .nil, by simp [loadFromFile, hc, hl, jsonParse]⟩
    · rcases hv : getVal pkg "reliz" with _ | v
      · exact ⟨.obj .nil, by simp [loadFromFile, hc, hv]⟩
      · by_cases ht : jsTruthy v
        · exact ⟨v, by simp [loadFromFile, hc, hv, ht]⟩
        · exact ⟨.obj .nil, by simp [loadFromFile, hc, hv, ht]⟩
    · exact ⟨.obj .nil, by simp [loadFromFile, hc]⟩

/-- C5 witness: the degradation theorem applied at concrete inputs — an
explicitly named missing file, and a discovered unparseable `.reliz.json`. -/
theorem loadFromFile_degrades_witness :
    loadFromFile ⟨[]⟩ "/w" (some "conf.json") = .ok (.obj .nil) ∧
    loadFromFile fsBadCfg "/w" none = .ok (.obj .nil) :=
  ⟨loadFromFile_degrades.1 ⟨[]⟩ "/w" "conf.json" (by decide),
   loadFromFile_degrades.2.1 fsBadCfg "/w" none (pathJoin "/w" ".reliz.json")
     (by decide) (by decide)⟩

/-! ## C6: the config file beats the dry-run flag in cli.js -/
/-- C6: evaluating the code at the failing input. A run invoked with
`--dry-run` against a config file that sets `dryRun: false` is effectively NOT
in dry-run mode: cli.js line 21 computes `config.dryRun ?? argv.dryRun`, so the
file value wins, even though `loadConfig` itself reported `argv.dryRun = true`.
This contradicts the claim (and the README, which says env and CLI override the
file), exposing the inverted precedence. -/
theorem cli_dryRun_file_overrides_flag :
    obsOkBool (effectiveDryRun fsDryRunFalse [] "/w" ["--dry-run"]) = some false ∧
    obsArgvDryRun (loadConfig fsDryRunFalse [] "/w" ["--dry-run"]) = some true ∧
    obsOkBool (effectiveDryRun ⟨[]⟩ [] "/w" ["--dry-run"]) = some true := by
  exact ⟨by decide, by decide, by decide⟩

lemma bind_apply {α β : Type} (x : M α) (f : α → M β) (s : St) :
    (x >>= f) s =
      match x s with
      | (.ok a, s2) => f a s2
      | (.error h, s2) => (.error h, s2) := rfl

lemma pure_apply {α : Type} (a : α) (s : St) : (pure a : M α) s = (.ok a, s) := rfl

/-! ## C7: the single rebase-and-retry of the release-branch push -/
/-- C7: with the default configuration, (1) a non-fast-forward rejection of
the release-branch push triggers exactly one rebase and one retry, after which
the workflow continues to the finish, the integration pushes and the tag push;
(2) a failing rebase aborts with "Push after rebase failed."; (3) a failing
retried push aborts the same way; (4) a push failure without the
non-fast-forward marker is rethrown immediately, with no rebase and no second
push attempt. -/
theorem gitflow_push_retry :
    (∀ m, hasNffMsg m = true →
      runM (performGitFlowRelease .nil ctxGF)
        (gfPre ++ [.error m, .ok "", .ok "", .ok "", .ok "", .ok "", .ok "v1.1.0", .ok ""]) =
      (.ok (), gfTracePre ++
        [.gitWrite "git pull --rebase origin release/1.1.0",
         .gitWrite "git push origin HEAD",
         .log "Finishing git flow release: 1.1.0",
         .gitWrite "GIT_MERGE_AUTOEDIT=no GIT_EDITOR=true git flow release finish -m \"Release-1.1.0\" 1.1.0",
         .log "Pushing all branches and tags...",
         .gitWrite "git push origin develop",
         .gitWrite "git push origin main",
         .gitRead "git tag",
         .gitWrite "git push origin v1.1.0",
         .log "Git flow release completed successfully."])) ∧
    (∀ m m2, hasNffMsg m = true →
      runM (performGitFlowRelease .nil ctxGF) (gfPre ++ [.error m, .error m2]) =
      (.error (.fail "Push after rebase failed. Please resolve conflicts and push manually."),
       gfTracePre ++ [.gitWrite "git pull --rebase origin release/1.1.0"])) ∧
    (∀ m m2, hasNffMsg m = true →
      runM (performGitFlowRelease .nil ctxGF) (gfPre ++ [.error m, .ok "", .error m2]) =
      (.error (.fail "Push after rebase failed. Please resolve conflicts and push manually."),
       gfTracePre ++ [.gitWrite "git pull --rebase origin release/1.1.0",
         .gitWrite "git push origin HEAD"])) ∧
    (∀ m, hasNffMsg m = false →
      runM (performGitFlowRelease .nil ctxGF) (gfPre ++ [.error m]) =
      (.error (.fail m), gfTracePre)) := by
  refine ⟨?_, ?_, ?_, ?_⟩
  · intro m hm
    simp [performGitFlowRelease, runM, bind_apply, pure_apply, emit, execGitWrite,
      execGitRead, execCmd, nextResult, throwJs, tryCatch, Bind.bind, Pure.pure,
      gfPre, gfTracePre, ctxGF, getVal2, getKeyF, getVal, jsOrVal, jsTruthy, jvalToStr,
      pushSuffixOf, cfgArr, jarrList, strIncludes, gitTagLines, gfTagName, infixL,
      startsL, splitLines, replaceAll, replaceAllGo, escapeQuotes, hm]
    try decide
  · intro m m2 hm
    simp [performGitFlowRelease, runM, bind_apply, pure_apply, emit, execGitWrite,
      execGitRead, execCmd, nextResult, throwJs, tryCatch, Bind.bind, Pure.pure,
      gfPre, gfTracePre, ctxGF, getVal2, getKeyF, getVal, jsOrVal, jsTruthy, jvalToStr,
      pushSuffixOf, cfgArr, jarrList, strIncludes, gitTagLines, gfTagName, infixL,
      startsL, splitLines, replaceAll, replaceAllGo, escapeQuotes, hm]
    try decide
  · intro m m2 hm
    simp [performGitFlowRelease, runM, bind_apply, pure_apply, emit, execGitWrite,
      execGitRead, execCmd, nextResult, throwJs, tryCatch, Bind.bind, Pure.pure,
      gfPre, gfTracePre, ctxGF, getVal2, getKeyF, getVal, jsOrVal, jsTruthy, jvalToStr,
      pushSuffixOf, cfgArr, jarrList, strIncludes, gitTagLines, gfTagName, infixL,
      startsL, splitLines, replaceAll, replaceAllGo, escapeQuotes, hm]
    try decide
  · intro m hm
    simp [performGitFlowRelease, runM, bind_apply, pure_apply, emit, execGitWrite,
      execGitRead, execCmd, nextResult, throwJs, tryCatch, Bind.bind, Pure.pure,
      gfPre, gfTracePre, ctxGF, getVal2, getKeyF, getVal, jsOrVal, jsTruthy, jvalToStr,
      pushSuffixOf, cfgArr, jarrList, strIncludes, gitTagLines, gfTagName, infixL,
      startsL, splitLines, replaceAll, replaceAllGo, escapeQuotes, hm]
    try decide

/-- C7 witness: the retry theorem applied at a concrete non-fast-forward
message and a concrete unrelated failure message. -/
theorem gitflow_push_retry_witness :
    hasNffMsg "! [rejected] non-fast-forward" = true ∧
    runM (performGitFlowRelease .nil ctxGF)
      (gfPre ++ [.error "! [rejected] non-fast-forward", .error "network down"]) =
      (.error (.fail "Push after rebase failed. Please resolve conflicts and push manually."),
       gfTracePre ++ [.gitWrite "git pull --rebase origin release/1.1.0"]) ∧
    hasNffMsg "permission denied" = false ∧
    runM (performGitFlowRelease .nil ctxGF) (gfPre ++ [.error "permission denied"]) =
      (.error (.fail "permission denied"), gfTracePre) :=
  ⟨by decide,
   gitflow_push_retry.2.1 "! [rejected] non-fast-forward" "network down" (by decide),
   by decide,
   gitflow_push_retry.2.2.2 "permission denied" (by decide)⟩

/-- C9 counterexample: with npm publish enabled, a failing `npm publish` is not
caught anywhere — the error escapes to the final `.catch`, the process exits 1,
and neither provider release nor any later phase runs. The claim said every
publication-phase failure is non-fatal. -/
theorem npm_publish_failure_is_fatal :
    runPub envPub cfgNpmPub ctxGF [] [.error "npm ERR! code E403"] =
      (1, [.npmExec "npm publish --tag latest",
           .errlog "Error: npm ERR! code E403"], none) := by
  decide

/-- C9 amended: GitHub and GitLab release-creation failures are each caught and
logged as warnings, the remaining pipeline (the other provider, plugin phases,
hooks, the success log) still runs and the process exits 0; a provider failure
leaves the release URL null or equal to a previously obtained one; but a
package-registry publish failure is fatal: it aborts the run with exit code 1
before any provider is contacted. -/
theorem publication_failures :
    (∀ e1, runPub { envPub with ghResult := .error e1 } cfgProviders ctxGF [] [] =
      (0, [.netPost "github createRelease",
           .warn ("GitHub release failed: " ++ e1),
           .netPost "gitlab createRelease",
           .log "GitLab release created.",
           .log "Release completed successfully."], some "https://gitlab.example/rel")) ∧
    (∀ e1 e2, runPub { envPub with ghResult := .error e1, glResult := .error e2 }
        cfgProviders ctxGF [] [] =
      (0, [.netPost "github createRelease",
           .warn ("GitHub release failed: " ++ e1),
           .netPost "gitlab createRelease",
           .warn ("GitLab release failed: " ++ e2),
           .log "Release completed successfully."], none)) ∧
    (∀ u e2, runPub { envPub with ghResult := .ok (some u), glResult := .error e2 }
        cfgProviders ctxGF [] [] =
      (0, [.netPost "github createRelease",
           .log "GitHub release created.",
           .netPost "gitlab createRelease",
           .warn ("GitLab release failed: " ++ e2),
           .log "Release completed successfully."], some u)) ∧
    (∀ e, runPub envPub cfgNpmPub ctxGF [] [.error e] =
      (1, [.npmExec "npm publish --tag latest",
           .errlog ("Error: " ++ e)], none)) := by
  refine ⟨?_, ?_, ?_, ?_⟩ <;> intros <;>
    simp [runPub, pubPhase, getReleaseNotesBodyM, runChangelogCommandM, optGet, getVal2,
      getKeyF, getVal, nn, truthyProp, obsEqTrue, jsTruthy, npmPublishM, createGitHubReleaseM,
      createGitLabReleaseM, jvalToStr, jsOrVal, envGet, runPluginLifecycleM,
      runPluginLifecycleAsyncM, runHooksM, hookCmdList, runHooksGo, ctxPairs, ctxGF,
      envPub, cfgProviders, cfgNpmPub, JFields.ofList, filterAndFormatCommits,
      groupCommits, String.intercalate, bind_apply, pure_apply, emit, execNpm, execShell,
      execCmd, nextResult, throwJs, tryCatch, Bind.bind, Pure.pure, pathJoin,
      isAbsolutePath] <;>
    try decide

/-! ## C8: syncBranches and the checked-out branch -/
/-- C8 counterexample: with the default branch configuration and `main` checked
out, `syncBranches` still issues `git branch --force main origin/main` — a
forced local-ref update of the currently checked-out branch. Only the develop
branch is protected by the check. -/
theorem syncBranches_forces_checked_out_main :
    Eff.gitWrite "git branch --force main origin/main" ∈
      (runM (syncBranches .nil ctxOnMain) []).2 := by
  decide

/-- C8 amended: for every branch configuration (truthy string names) and every
checked-out branch, the command sequence of `syncBranches` force-updates the
main branch unconditionally — even when it is the checked-out branch — and
force-updates the develop branch exactly when develop is not checked out; that
develop update is the only skipped step. -/
theorem syncBranches_skips_only_develop (mainN devN br : String)
    (hm : mainN ≠ "") (hd : devN ≠ "") :
    runM (syncBranches
      (JFields.ofList [("branches", .obj (JFields.ofList
        [("main", .str mainN), ("develop", .str devN)]))])
      { ctxOnMain with currentBranch := br }) [] =
    (.ok (), [.log "Fetching all branches...",
      .gitWrite "git fetch --all --prune",
      .log "Pulling main...",
      .gitWrite ("git fetch origin " ++ mainN),
      .gitWrite ("git branch --force " ++ mainN ++ " origin/" ++ mainN),
      .log "Pulling develop...",
      .gitWrite ("git fetch origin " ++ devN)] ++
      (if br = devN then [.log "Skipping force update for develop (currently checked out)."]
       else [.gitWrite ("git branch --force " ++ devN ++ " origin/" ++ devN)]) ++
      [.log "Branches are up to date."]) := by
  have hcfg : jvalToStr (jsOrVal (getVal2
      (JFields.ofList [("branches", .obj (JFields.ofList
        [("main", .str mainN), ("develop", .str devN)]))]) "branches" "main")
      (.str "main")) = mainN := by
    simp [getVal2, getKeyF, getVal, JFields.ofList, jsOrVal, jsTruthy, hm, jvalToStr]
  have hcfg2 : jvalToStr (jsOrVal (getVal2
      (JFields.ofList [("branches", .obj (JFields.ofList
        [("main", .str mainN), ("develop", .str devN)]))]) "branches" "develop")
      (.str "develop")) = devN := by
    simp [getVal2, getKeyF, getVal, JFields.ofList, jsOrVal, jsTruthy, hd, jvalToStr]
  by_cases hbr : br = devN
  · simp [syncBranches, hcfg, hcfg2, runM, bind_apply, emit, execGitWrite, execCmd,
      nextResult, pure_apply, throwJs, Bind.bind, Pure.pure, hbr]
  · simp [syncBranches, hcfg, hcfg2, runM, bind_apply, emit, execGitWrite, execCmd,
      nextResult, pure_apply, throwJs, Bind.bind, Pure.pure, hbr]

/-- C8 witness: the amended theorem at concrete branch names with develop
checked out — the trace force-updates main and skips develop. -/
theorem syncBranches_skips_only_develop_witness :
    runM (syncBranches
      (JFields.ofList [("branches", .obj (JFields.ofList
        [("main", .str "main"), ("develop", .str "develop")]))])
      { ctxOnMain with currentBranch := "develop" }) [] =
    (.ok (), [.log "Fetching all branches...",
      .gitWrite "git fetch --all --prune",
      .log "Pulling main...",
      .gitWrite "git fetch origin main",
      .gitWrite "git branch --force main origin/main",
      .log "Pulling develop...",
      .gitWrite "git fetch origin develop",
      .log "Skipping force update for develop (currently checked out).",
      .log "Branches are up to date."]) := by
  have h := syncBranches_skips_only_develop "main" "develop" "develop"
    (by decide) (by decide)
  simpa using h

lemma emit_apply (e : Eff) (s : St) : emit e s = (.ok (), ⟨s.queue, s.trace ++ [e]⟩) := rfl

lemma nullishB_none (alt : Bool) : nullishB none alt = alt := rfl

lemma exitProc_apply {α : Type} (n : Nat) (s : St) :
    (exitProc n : M α) s = (.error (.exit n), s) := rfl

lemma runPluginLifecycleM_apply (method : String) (ps : List PluginM) (s : St) :
    runPluginLifecycleM method ps s = (.ok (), ⟨s.queue, s.trace ++ pluginTrace method ps⟩) := by
  induction ps generalizing s with
  | nil => simp [runPluginLifecycleM, pluginTrace, pure_apply]
  | cons p rest ih =>
    rcases hm : pluginMethod p method with _ | r
    · simp [runPluginLifecycleM, pluginTrace, bind_apply, pure_apply, emit_apply, hm, ih]
    · rcases r with u | e2
      · cases u
        simp [runPluginLifecycleM, pluginTrace, bind_apply, pure_apply, emit_apply, hm, ih]
      · simp [runPluginLifecycleM, pluginTrace, bind_apply, pure_apply, emit_apply, hm, ih, List.append_assoc]

lemma runHooksGo_dry_apply (pairs : List (String × String)) (l : List JVal)
    (h : hookStringsB l = true) (s : St) :
    runHooksGo pairs true l s = (.ok (), ⟨s.queue, s.trace ++ hooksDryTrace pairs l⟩) := by
  induction l generalizing s with
  | nil => simp [runHooksGo, hooksDryTrace, pure_apply]
  | cons c rest ih =>
    cases c with
    | str cs =>
      simp only [hookStringsB] at h
      simp [runHooksGo, hooksDryTrace, bind_apply, pure_apply, emit_apply, ih h, List.append_assoc]
    | null => simp [hookStringsB] at h
    | bool b => simp [hookStringsB] at h
    | num n => simp [hookStringsB] at h
    | obj o => simp [hookStringsB] at h
    | arr a => simp [hookStringsB] at h

lemma runHooksM_dry_apply (cmds : Option JVal)
    (h : hookStringsB (hookCmdList cmds) = true) (pairs : List (String × String)) (s : St) :
    runHooksM cmds pairs true s =
      (.ok (), ⟨s.queue, s.trace ++ hooksDryTrace pairs (hookCmdList cmds)⟩) :=
  runHooksGo_dry_apply pairs (hookCmdList cmds) h s

lemma ensureOriginRemoteM_apply (env : RunEnv) (h : env.originOk = true) (s : St) :
    ensureOriginRemoteM env s =
      (.ok (), ⟨s.queue, s.trace ++ [Eff.gitRead "git remote get-url origin"]⟩) := by
  simp [ensureOriginRemoteM, bind_apply, pure_apply, emit_apply, h]

lemma ite_ensureClean_apply (env : RunEnv) (h : env.treeClean = true) (c : Prop) [Decidable c]
    (s : St) :
    ((if c then ensureCleanM env else pure ()) : M Unit) s =
      (.ok (), ⟨s.queue, s.trace ++ if c then [Eff.gitRead "git status --porcelain"] else []⟩) := by
  by_cases hc : c
  · simp [hc, ensureCleanM, bind_apply, pure_apply, emit_apply, h]
  · simp [hc, pure_apply]

lemma ite_ensureGitFlow_apply (env : RunEnv) (h : env.gitFlowOk = true) (c : Prop) [Decidable c]
    (s : St) :
    ((if c then ensureGitFlowM env else pure ()) : M Unit) s =
      (.ok (), ⟨s.queue, s.trace ++ if c then [Eff.gitRead "git flow version"] else []⟩) := by
  by_cases hc : c
  · simp [hc, ensureGitFlowM, bind_apply, pure_apply, emit_apply, h]
  · simp [hc, pure_apply]

lemma ensureUpstreamM_apply (env : RunEnv) (h : env.upstreamOk = true) (br : String)
    (req : Bool) (s : St) :
    ensureUpstreamM env br req s =
      (.ok (), ⟨s.queue, s.trace ++ if req then
        [Eff.gitRead ("git rev-parse --abbrev-ref \"" ++ br ++ "@{upstream}\"")] else []⟩) := by
  cases req
  · simp [ensureUpstreamM, pure_apply]
  · simp [ensureUpstreamM, bind_apply, pure_apply, emit_apply, h]

lemma getCurrentBranchM_apply (env : RunEnv) (s : St) :
    getCurrentBranchM env s =
      (.ok env.branch, ⟨s.queue, s.trace ++ [Eff.gitRead "git branch --show-current"]⟩) := by
  simp [getCurrentBranchM, bind_apply, emit_apply, pure_apply]

lemma getNewCommitsM_apply (env : RunEnv) (s : St) :
    getNewCommitsM env s =
      (.ok env.commits, ⟨s.queue, s.trace ++ [Eff.gitRead "git log --oneline --no-merges"]⟩) := by
  simp [getNewCommitsM, bind_apply, emit_apply, pure_apply]

lemma ite_emit_apply (c : Prop) [Decidable c] (e : Eff) (s : St) :
    ((if c then emit e else pure ()) : M Unit) s =
      (.ok (), ⟨s.queue, s.trace ++ if c then [e] else []⟩) := by
  by_cases hc : c
  · simp [hc, emit_apply]
  · simp [hc, pure_apply]

lemma allNonMut_nil : allNonMut [] := by
  intro e he
  cases he

lemma allNonMut_singleton (e : Eff) (h : isMutEff e = false) : allNonMut [e] := by
  intro x hx
  rw [List.mem_singleton] at hx
  rw [hx]
  exact h

lemma allNonMut_cons (e : Eff) (T : List Eff) (h : isMutEff e = false) (ht : allNonMut T) :
    allNonMut (e :: T) := by
  intro x hx
  rcases List.mem_cons.mp hx with rfl | hx2
  · exact h
  · exact ht x hx2

lemma allNonMut_append {A B : List Eff} (ha : allNonMut A) (hb : allNonMut B) :
    allNonMut (A ++ B) := by
  intro e he
  rcases List.mem_append.mp he with h | h
  · exact ha e h
  · exact hb e h

lemma allNonMut_ite (c : Prop) [Decidable c] {A B : List Eff} (ha : allNonMut A)
    (hb : allNonMut B) : allNonMut (if c then A else B) := by
  by_cases hc : c
  · simpa [hc] using ha
  · simpa [hc] using hb

lemma pluginTrace_allNonMut (method : String) (ps : List PluginM) :
    allNonMut (pluginTrace method ps) := by
  induction ps with
  | nil => exact allNonMut_nil
  | cons p rest ih =>
    intro e he
    simp only [pluginTrace] at he
    rcases List.mem_append.mp he with h1 | h2
    · rcases hm : pluginMethod p method with _ | r
      · simp [hm] at h1
      · rcases r with e2 | u
        · simp [hm] at h1
          rw [h1]
          rfl
        · cases u
          simp [hm] at h1
    · exact ih e h2

lemma hooksDryTrace_allNonMut (pairs : List (String × String)) (l : List JVal) :
    allNonMut (hooksDryTrace pairs l) := by
  induction l with
  | nil => exact allNonMut_nil
  | cons c rest ih =>
    cases c with
    | str cs => exact allNonMut_cons _ _ rfl ih
    | null => exact allNonMut_nil
    | bool b => exact allNonMut_nil
    | num n => exact allNonMut_nil
    | obj o => exact allNonMut_nil
    | arr a => exact allNonMut_nil

lemma dryTrace_allNonMut (env : RunEnv) (cfg : JFields) (av : ArgvOut) (cv : String) :
    allNonMut (dryTrace env cfg av cv) := by
  unfold dryTrace
  repeat
    first
    | exact allNonMut_nil
    | exact pluginTrace_allNonMut _ _
    | exact hooksDryTrace_allNonMut _ _
    | exact allNonMut_singleton _ rfl
    | apply allNonMut_append
    | apply allNonMut_ite

lemma wouldLine_mem_dryTrace (env : RunEnv) (cfg : JFields) (av : ArgvOut) (cv : String) :
    Eff.log (wouldReleaseLine env cfg av cv) ∈ dryTrace env cfg av cv := by
  simp [dryTrace]

lemma loadConfigWith_set_dryRun (fs : FSys) (envv : List (String × String)) (cwd : String)
    (parsed : ParsedArgv) (b : Bool) :
    loadConfigWith fs envv cwd {parsed with dryRun := b} =
      match loadConfigWith fs envv cwd parsed with
      | .ok (cfg, av) => .ok (cfg, {av with dryRun := b || obsEqTrue (getKeyF cfg "dryRun")})
      | .error e => .error e := by
  unfold loadConfigWith
  rcases h : loadFromFile fs cwd (explicitOf parsed.config) with e | fc
  · simp [h]
  · simp [h]

lemma decisionOf_set_dryRun (env : RunEnv) (p : ParsedArgv) (b : Bool) :
    decisionOf env {p with dryRun := b} = decisionOf env p := by
  unfold decisionOf
  rw [loadConfigWith_set_dryRun]
  rcases h : loadConfigWith env.fs env.envv env.cwd p with e | pr
  · simp
  · obtain ⟨cfg, av⟩ := pr
    rcases hv : getCurrentVersionE env with m | pv
    · simp [hv]
    · obtain ⟨cv, pn⟩ := pv
      simp [hv, resolveBumpV]

lemma decisionOf_ok (env : RunEnv) (p : ParsedArgv) (cfg : JFields) (av : ArgvOut)
    (cv pn : String)
    (hl : loadConfigWith env.fs env.envv env.cwd p = .ok (cfg, av))
    (hv : getCurrentVersionE env = .ok (cv, pn)) :
    decisionOf env p = some (dryNewVersion env cfg av cv) := by
  unfold decisionOf
  rw [hl, hv]
  simp [dryNewVersion, dryDecide]

lemma runModelM_dry_apply (env : RunEnv) (p : ParsedArgv) (cfg : JFields) (av : ArgvOut)
    (cv pn : String)
    (hl : loadConfigWith env.fs env.envv env.cwd {p with dryRun := true} = .ok (cfg, av))
    (hdr : getKeyF cfg "dryRun" = none)
    (hrv : av.releaseVersion = false) (hcl : av.changelog = false)
    (hv : getCurrentVersionE env = .ok (cv, pn))
    (hhk : hookStringsB (hookCmdList (getVal2 cfg "hooks" "beforeInit")) = true)
    (horig : env.originOk = true) (hclean : env.treeClean = true)
    (hgf : env.gitFlowOk = true) (hup : env.upstreamOk = true)
    (hbr : branchAllowedB cfg env.branch = true) (s : St) :
    runModelM env {p with dryRun := true} s =
      (.error (.exit 0), ⟨s.queue, s.trace ++ dryTrace env cfg av cv⟩) := by
  have hdry : av.dryRun = true := by
    have hset := loadConfigWith_set_dryRun env.fs env.envv env.cwd p true
    rw [hl] at hset
    rcases h0 : loadConfigWith env.fs env.envv env.cwd p with e | pr
    · rw [h0] at hset
      simp at hset
    · obtain ⟨cfg0, av0⟩ := pr
      rw [h0] at hset
      simp only [Except.ok.injEq, Prod.mk.injEq] at hset
      rw [hset.2]
      simp
  unfold runModelM
  rw [hl]
  simp [hdr, nullishB_none, hdry, hrv, hcl, hv, hbr, bind_apply, pure_apply, emit_apply,
    exitProc_apply,
    ite_emit_apply, ite_ensureClean_apply env hclean, ite_ensureGitFlow_apply env hgf,
    ensureOriginRemoteM_apply env horig, ensureUpstreamM_apply env hup,
    getCurrentBranchM_apply, getNewCommitsM_apply,
    runPluginLifecycleM_apply, runHooksM_dry_apply _ hhk,
    dryTrace, wouldReleaseLine, dryNewVersion, dryDecide,
    List.append_assoc]

/-- C1 counterexample: on a clean `develop` checkout with current version
1.0.0 and argv `minor --dry-run`, the run exits 0 without mutating anything,
but its trace is exactly the banner, five read-only precondition checks and
the one `[dry-run] Would release ...` line: the tag name `v1.1.0`, the
release branch name `release/1.1.0` and the success report are never computed
or logged, contradicting the claim that every decision (next version, workflow
branch names, tag name) is emitted as a log line. -/
theorem dryRun_omits_tag_and_branch_decisions :
    (runModel envC1 (parseArgv ["minor", "--dry-run"])).1 = 0 ∧
    (runModel envC1 (parseArgv ["minor", "--dry-run"])).2 =
      [.log "Running in dry-run mode. No changes will be made.",
       .gitRead "git remote get-url origin",
       .gitRead "git status --porcelain",
       .gitRead "git flow version",
       .gitRead "git branch --show-current",
       .gitRead "git log --oneline --no-merges",
       .log "[dry-run] Would release 1.1.0 (bump: minor) from develop."] ∧
    ((runModel envC1 (parseArgv ["minor", "--dry-run"])).2.all (fun e =>
      !effMentions "v1.1.0" e && !effMentions "release/1.1.0" e &&
      !effMentions "Release completed successfully." e && !isMutEff e)) = true := by
  decide

/-- C1 (amended): a dry-run invocation that passes the read-only precondition
checks exits with code 0, performs no filesystem, git, network or shell
mutation, and logs the next-version decision in its single
`[dry-run] Would release <version> (bump: <kind>) from <branch>.` line, where
the version is exactly the decision the corresponding real run (same flags
with dry-run off) would compute; the tag name and the workflow branch names
are not among the previewed decisions, and no success report is printed. -/
theorem dryRun_is_safe_preview (env : RunEnv) (p : ParsedArgv) (cfg : JFields) (av : ArgvOut)
    (cv pn : String)
    (hl : loadConfigWith env.fs env.envv env.cwd {p with dryRun := true} = .ok (cfg, av))
    (hdr : getKeyF cfg "dryRun" = none)
    (hrv : av.releaseVersion = false) (hcl : av.changelog = false)
    (hv : getCurrentVersionE env = .ok (cv, pn))
    (hhk : hookStringsB (hookCmdList (getVal2 cfg "hooks" "beforeInit")) = true)
    (horig : env.originOk = true) (hclean : env.treeClean = true)
    (hgf : env.gitFlowOk = true) (hup : env.upstreamOk = true)
    (hbr : branchAllowedB cfg env.branch = true) :
    (runModel env {p with dryRun := true}).1 = 0 ∧
    (∀ e ∈ (runModel env {p with dryRun := true}).2, isMutEff e = false) ∧
    Eff.log (wouldReleaseLine env cfg av cv) ∈ (runModel env {p with dryRun := true}).2 ∧
    decisionOf env {p with dryRun := false} = some (dryNewVersion env cfg av cv) := by
  have hrun : runModel env {p with dryRun := true} = (0, dryTrace env cfg av cv) := by
    unfold runModel runToExit
    rw [runModelM_dry_apply env p cfg av cv pn hl hdr hrv hcl hv hhk horig hclean hgf hup hbr]
    simp
  refine ⟨by rw [hrun], ?_, ?_, ?_⟩
  · rw [hrun]
    exact fun e he => dryTrace_allNonMut env cfg av cv e he
  · rw [hrun]
    exact wouldLine_mem_dryTrace env cfg av cv
  · calc decisionOf env {p with dryRun := false}
        = decisionOf env p := decisionOf_set_dryRun env p false
      _ = decisionOf env {p with dryRun := true} := (decisionOf_set_dryRun env p true).symm
      _ = some (dryNewVersion env cfg av cv) := decisionOf_ok env _ cfg av cv pn hl hv

/-- C1 witness: the amended theorem applied to the concrete `envC1` snapshot
with argv `minor`, every hypothesis discharged by evaluation. -/
theorem dryRun_is_safe_preview_witness :
    getKeyF cfgC1 "dryRun" = none ∧
    (runModel envC1 {parseArgv ["minor"] with dryRun := true}).1 = 0 := by
  refine ⟨rfl, ?_⟩
  exact (dryRun_is_safe_preview envC1 (parseArgv ["minor"]) cfgC1 avC1 "1.0.0" "p"
    rfl rfl rfl rfl rfl (by decide) (by decide) (by decide) (by decide) (by decide)
    (by decide)).1

end Reliz
